import Mathlib

/-!
# Verification of the data-alchemist validation and rule-derivation engine

A shallow embedding of the core logic of the `data-alchemist` repository:

* `src/utils/validator.ts` — structural, cross-entity and capacity checks;
* `src/utils/nlpSearch.ts` — free-text search criteria extraction and scoring;
* `src/components/BusinessRulesEditor.tsx` — heuristic rule-suggestion extraction;
* `src/components/ExportControls.tsx` — export gating;
* the `dataReducer` of the data context (state transitions).

Modelling conventions:

* JavaScript `number` fields are modelled as `Int` (all the logic under
  verification manipulates integer values; floating point is out of scope).
* JavaScript strings are Lean `String`s; `toLowerCase`/`toUpperCase` act
  per-character (faithful on the ASCII data the code handles).
* JavaScript string truthiness (`if (s)`) is `s ≠ ""`; property access on a
  field that does not exist on the record type (per `src/types/data.ts`)
  yields `undefined`, modelled as `none`.
* `Date.now()` and `new Date().toISOString()` are passed in as explicit
  parameters (`now : Nat`, `nowIso : String`).
* The specific regular expressions of the source are embedded as direct
  string-scanning functions with JavaScript semantics (leftmost match,
  alternatives in order, greedy repetition with the backtracking behaviour
  those particular patterns admit).
-/

/-! ## JavaScript string primitives -/

/-- JavaScript `\s` (whitespace) for the character set the data uses. -/
def isWsChar (c : Char) : Bool :=
  c = ' ' || c = '\t' || c = '\n' || c = '\r'

/-- `String.prototype.toLowerCase`, per character (ASCII-faithful). -/
def toLowerJS (s : String) : String :=
  String.mk (s.data.map Char.toLower)

/-- `String.prototype.toUpperCase`, per character (ASCII-faithful). -/
def toUpperJS (s : String) : String :=
  String.mk (s.data.map Char.toUpper)

/-- Boolean list-prefix test on characters. -/
def isPrefixChars : List Char → List Char → Bool
  | [], _ => true
  | _ :: _, [] => false
  | a :: as, b :: bs => a = b && isPrefixChars as bs

/-- Boolean list-infix test on characters. -/
def isInfixChars (sub : List Char) : List Char → Bool
  | [] => isPrefixChars sub []
  | c :: rest => isPrefixChars sub (c :: rest) || isInfixChars sub rest

/-- `String.prototype.includes`: substring containment. -/
def containsSub (s sub : String) : Bool :=
  isInfixChars sub.data s.data

/-- `String.prototype.trim`: strip whitespace from both ends. -/
def trimJS (s : String) : String :=
  String.mk (((s.data.dropWhile isWsChar).reverse.dropWhile isWsChar).reverse)

/-- Fuelled worker for `split(/\s+/)`: fields separated by maximal
whitespace runs, with an empty leading (trailing) field when the string
starts (ends) with whitespace — JavaScript `split` semantics. -/
def splitWsFuel : Nat → List Char → List String
  | 0, cs => [String.mk cs]
  | f + 1, cs =>
      let tok := cs.takeWhile (fun c => !isWsChar c)
      let rest := cs.dropWhile (fun c => !isWsChar c)
      if rest.isEmpty then [String.mk tok]
      else String.mk tok :: splitWsFuel f (rest.dropWhile isWsChar)

/-- JavaScript `s.split(/\s+/)`. -/
def splitWsJS (s : String) : List String :=
  splitWsFuel (s.data.length + 1) s.data

/-! ## Decimal rendering of numbers (JavaScript `String(n)` / template `${n}`) -/

/-- The decimal digit character of `d` (total; `d ≥ 9` maps to `9`,
which is never reached on the `d < 10` inputs we feed it). -/
def digitChar (d : Nat) : Char :=
  match d with
  | 0 => '0' | 1 => '1' | 2 => '2' | 3 => '3' | 4 => '4'
  | 5 => '5' | 6 => '6' | 7 => '7' | 8 => '8' | _ => '9'

/-- Fuelled most-significant-first decimal digits of a natural number. -/
def natToCharsFuel : Nat → Nat → List Char
  | 0, _ => []
  | f + 1, n =>
      if n < 10 then [digitChar n]
      else natToCharsFuel f (n / 10) ++ [digitChar (n % 10)]

/-- Decimal digit characters of `n`, most significant first. -/
def natToChars (n : Nat) : List Char :=
  natToCharsFuel (n + 1) n

/-- JavaScript `String(n)` for a natural number. -/
def natToString (n : Nat) : String :=
  String.mk (natToChars n)

/-- JavaScript `String(i)` for an integer. -/
def intToString (i : Int) : String :=
  if i < 0 then "-" ++ natToString i.natAbs else natToString i.toNat

/-- Decode a digit-character list back to the natural number it denotes. -/
def decDigits (l : List Char) : Nat :=
  l.foldl (fun a c => a * 10 + (c.toNat - 48)) 0

theorem digitChar_decode {d : Nat} (hd : d < 10) : (digitChar d).toNat - 48 = d := by
  interval_cases d <;> rfl

theorem digitChar_ne_dash (d : Nat) : digitChar d ≠ '-' := by
  unfold digitChar
  split <;> decide

theorem natToCharsFuel_decode :
    ∀ (f n : Nat), n < 10 ^ f → ∀ acc : Nat,
      List.foldl (fun a c => a * 10 + (c.toNat - 48)) acc (natToCharsFuel f n)
        = acc * 10 ^ (natToCharsFuel f n).length + n := by
  intro f
  induction f with
  | zero =>
      intro n hn acc
      have hn0 : n = 0 := by omega
      subst hn0
      simp [natToCharsFuel]
  | succ f ih =>
      intro n hn acc
      by_cases h10 : n < 10
      · simp only [natToCharsFuel, if_pos h10, List.foldl_cons, List.foldl_nil,
          List.length_cons, List.length_nil]
        rw [digitChar_decode h10]
        ring
      · have hdiv : n / 10 < 10 ^ f := by
          rw [Nat.div_lt_iff_lt_mul (by norm_num)]
          calc n < 10 ^ (f + 1) := hn
            _ = 10 ^ f * 10 := by ring
        simp only [natToCharsFuel, if_neg h10, List.foldl_append, List.foldl_cons,
          List.foldl_nil, List.length_append, List.length_cons, List.length_nil]
        rw [ih (n / 10) hdiv acc, digitChar_decode (Nat.mod_lt n (by norm_num))]
        have hmod : n / 10 * 10 + n % 10 = n := by omega
        calc (acc * 10 ^ (natToCharsFuel f (n / 10)).length + n / 10) * 10 + n % 10
            = acc * (10 ^ (natToCharsFuel f (n / 10)).length * 10) + (n / 10 * 10 + n % 10) := by
              ring
          _ = acc * 10 ^ ((natToCharsFuel f (n / 10)).length + (0 + 1)) + n := by
              rw [hmod]
              ring_nf

theorem decDigits_natToChars (n : Nat) : decDigits (natToChars n) = n := by
  have hlt : n < 10 ^ (n + 1) :=
    lt_of_lt_of_le (Nat.lt_two_pow n)
      (le_trans (Nat.pow_le_pow_left (by norm_num) n)
        (Nat.pow_le_pow_right (by norm_num) (Nat.le_succ n)))
  have h := natToCharsFuel_decode (n + 1) n hlt 0
  simpa [decDigits, natToChars] using h

theorem natToChars_injective {m n : Nat} (h : natToChars m = natToChars n) : m = n := by
  have := congrArg decDigits h
  rwa [decDigits_natToChars, decDigits_natToChars] at this

theorem natToString_injective {m n : Nat} (h : natToString m = natToString n) : m = n := by
  apply natToChars_injective
  have := congrArg String.data h
  simpa [natToString] using this

theorem natToCharsFuel_all_digits :
    ∀ (f n : Nat) (c : Char), c ∈ natToCharsFuel f n → ∃ d, c = digitChar d := by
  intro f
  induction f with
  | zero => intro n c hc; simp [natToCharsFuel] at hc
  | succ f ih =>
      intro n c hc
      by_cases h10 : n < 10
      · simp [natToCharsFuel, if_pos h10] at hc
        exact ⟨n, hc⟩
      · simp only [natToCharsFuel, if_neg h10, List.mem_append, List.mem_singleton] at hc
        rcases hc with hc | hc
        · exact ih (n / 10) c hc
        · exact ⟨n % 10, hc⟩

theorem natToChars_ne_nil (n : Nat) : natToChars n ≠ [] := by
  unfold natToChars natToCharsFuel
  by_cases h10 : n < 10 <;> simp [h10]

theorem natToChars_head_not_dash (n : Nat) : ∀ c cs, natToChars n = c :: cs → c ≠ '-' := by
  intro c cs hc
  have hmem : c ∈ natToChars n := by rw [hc]; exact List.mem_cons_self c cs
  obtain ⟨d, hd⟩ := natToCharsFuel_all_digits (n + 1) n c hmem
  rw [hd]
  exact digitChar_ne_dash d

theorem intToString_injective {i j : Int} (h : intToString i = intToString j) : i = j := by
  unfold intToString at h
  by_cases hi : i < 0 <;> by_cases hj : j < 0
  · simp only [if_pos hi, if_pos hj] at h
    have hdata := congrArg String.data h
    simp only [String.data_append] at hdata
    have habs : i.natAbs = j.natAbs := by
      apply natToChars_injective
      have h2 : (natToString i.natAbs).data = (natToString j.natAbs).data :=
        List.append_cancel_left hdata
      simpa [natToString] using h2
    omega
  · exfalso
    simp only [if_pos hi, if_neg hj] at h
    have hdata := congrArg String.data h
    simp only [String.data_append] at hdata
    obtain ⟨c, cs, hcons⟩ : ∃ c cs, natToChars j.toNat = c :: cs := by
      cases hcj : natToChars j.toNat with
      | nil => exact absurd hcj (natToChars_ne_nil _)
      | cons c cs => exact ⟨c, cs, rfl⟩
    have : ('-' :: (natToString i.natAbs).data) = c :: cs := by
      simpa [natToString, hcons] using hdata
    have hc : c = '-' := by
      have := congrArg (fun l => l.head?) this
      simpa using this.symm
    exact natToChars_head_not_dash j.toNat c cs hcons hc
  · exfalso
    simp only [if_neg hi, if_pos hj] at h
    have hdata := congrArg String.data h
    simp only [String.data_append] at hdata
    obtain ⟨c, cs, hcons⟩ : ∃ c cs, natToChars i.toNat = c :: cs := by
      cases hci : natToChars i.toNat with
      | nil => exact absurd hci (natToChars_ne_nil _)
      | cons c cs => exact ⟨c, cs, rfl⟩
    have : c :: cs = ('-' :: (natToString j.natAbs).data) := by
      simpa [natToString, hcons] using hdata
    have hc : c = '-' := by
      have := congrArg (fun l => l.head?) this
      simpa using this
    exact natToChars_head_not_dash i.toNat c cs hcons hc
  · simp only [if_neg hi, if_neg hj] at h
    have := natToString_injective h
    omega

/-- Cancellation for decimal indices embedded in identifier strings. -/
theorem append_natToString_inj (pre suf : String) {i j : Nat}
    (h : pre ++ natToString i ++ suf = pre ++ natToString j ++ suf) : i = j := by
  have hdata := congrArg String.data h
  simp only [String.data_append] at hdata
  have h1 : pre.data ++ (natToString i).data = pre.data ++ (natToString j).data :=
    List.append_cancel_right hdata
  have h2 : (natToString i).data = (natToString j).data := List.append_cancel_left h1
  exact natToChars_injective (by simpa [natToString] using h2)

/-- Cancellation for decimal integer values embedded in message strings. -/
theorem append_intToString_inj (pre suf : String) {i j : Int}
    (h : pre ++ intToString i ++ suf = pre ++ intToString j ++ suf) : i = j := by
  have hdata := congrArg String.data h
  simp only [String.data_append] at hdata
  have h1 : pre.data ++ (intToString i).data = pre.data ++ (intToString j).data :=
    List.append_cancel_right hdata
  have h2 : (intToString i).data = (intToString j).data := List.append_cancel_left h1
  exact intToString_injective (String.ext h2)

namespace DA

/-! ## Data model (`src/types/data.ts`) -/

/-- Finding severity: `'error' | 'warning'`. -/
inductive Severity where
  | error
  | warning
deriving DecidableEq

/-- Owning entity of a finding: `'clients' | 'workers' | 'tasks'`. -/
inductive EntityKind where
  | clients
  | workers
  | tasks
deriving DecidableEq

/-- Runtime shape of an `AttributesJSON` field: an object, a raw string
(as a failed inline edit can leave it), or absent. -/
inductive AttrVal where
  | missing
  | objVal
  | strVal (s : String)
deriving DecidableEq

/-- JavaScript truthiness of an `AttributesJSON` value. -/
def AttrVal.truthy : AttrVal → Bool
  | .missing => false
  | .objVal => true
  | .strVal s => s != ""

/-- `typeof v === 'object'`. -/
def AttrVal.isObj : AttrVal → Bool
  | .objVal => true
  | _ => false

/-- The guard `v && typeof v !== 'object'` used by the validator. -/
def AttrVal.invalid (v : AttrVal) : Bool :=
  v.truthy && !v.isObj

/-- `Client` record. -/
structure Client where
  ClientID : String
  ClientName : String
  PriorityLevel : Int
  RequestedTaskIDs : List String
  GroupTag : String
  AttributesJSON : AttrVal
deriving DecidableEq

/-- `Worker` record. -/
structure Worker where
  WorkerID : String
  WorkerName : String
  Skills : List String
  AvailableSlots : List Int
  MaxLoadPerPhase : Int
  WorkerGroup : String
  QualificationLevel : Int
  AttributesJSON : AttrVal
deriving DecidableEq

/-- `Task` record. Note: the interface has `TaskName` (no `Name` field),
no `PriorityLevel` and no co-execution-group field. -/
structure Task where
  TaskID : String
  TaskName : String
  Category : String
  Duration : Int
  RequiredSkills : List String
  PreferredPhases : List Int
  MaxConcurrent : Int
  AttributesJSON : AttrVal
deriving DecidableEq

/-- `ValidationError`: one validation finding. -/
structure ValidationError where
  id : String
  type : Severity
  entity : EntityKind
  rowId : String
  field : Option String
  message : String
  suggestion : Option String
deriving DecidableEq

/-! ## Structural validator (`src/utils/validator.ts`) -/

/-- `client.ClientID || `row_${index}``. -/
def clientRowId (c : Client) (index : Nat) : String :=
  if c.ClientID ≠ "" then c.ClientID else "row_" ++ natToString index

/-- The findings the `validateClients` loop body pushes for one client,
given the `seenIds` contents at that iteration. -/
def clientFindings (index : Nat) (c : Client) (seen : List String) : List ValidationError :=
  let rowId := clientRowId c index
  (if c.ClientID = "" then
    [⟨"client_" ++ natToString index ++ "_no_id", .error, .clients, rowId,
      some "ClientID", "ClientID is required",
      some "Add a unique identifier for this client"⟩]
  else []) ++
  (if c.ClientName = "" then
    [⟨"client_" ++ natToString index ++ "_no_name", .error, .clients, rowId,
      some "ClientName", "Client name is required",
      some "Add a name for this client"⟩]
  else []) ++
  (if c.ClientID ≠ "" ∧ seen.contains c.ClientID then
    [⟨"client_" ++ natToString index ++ "_duplicate_id", .error, .clients, rowId,
      some "ClientID", "Duplicate ClientID: " ++ c.ClientID,
      some "Change to a unique identifier"⟩]
  else []) ++
  (if c.PriorityLevel < 1 ∨ 5 < c.PriorityLevel then
    [⟨"client_" ++ natToString index ++ "_invalid_priority", .error, .clients, rowId,
      some "PriorityLevel", "PriorityLevel must be between 1 and 5",
      some "Set priority between 1 (low) and 5 (high)"⟩]
  else []) ++
  (if c.AttributesJSON.invalid then
    [⟨"client_" ++ natToString index ++ "_invalid_json", .error, .clients, rowId,
      some "AttributesJSON", "Invalid JSON format in AttributesJSON",
      some "Fix JSON syntax or leave empty"⟩]
  else [])

/-- The `seenIds` update of one `validateClients` iteration
(`else if (client.ClientID) seenIds.add(...)`; a JS `Set` is modelled as a
list, only membership is ever consulted). -/
def clientSeenStep (seen : List String) (c : Client) : List String :=
  if c.ClientID ≠ "" ∧ ¬ seen.contains c.ClientID then c.ClientID :: seen else seen

/-- The `clients.forEach` loop of `validateClients`. -/
def validateClientsAux : List String → Nat → List Client → List ValidationError
  | _, _, [] => []
  | seen, index, c :: rest =>
      clientFindings index c seen ++
      validateClientsAux (clientSeenStep seen c) (index + 1) rest

/-- `validateClients`. -/
def validateClients (clients : List Client) : List ValidationError :=
  validateClientsAux [] 0 clients

/-- `worker.WorkerID || `row_${index}``. -/
def workerRowId (w : Worker) (index : Nat) : String :=
  if w.WorkerID ≠ "" then w.WorkerID else "row_" ++ natToString index

/-- The findings the `validateWorkers` loop body pushes for one worker.
`AvailableSlots` is `List Int`, so the `!Array.isArray(...)` disjunct of the
no-slots check and the nested non-numeric-slot check (`typeof slot !==
'number' || isNaN(slot)`) never fire in this model. -/
def workerFindings (index : Nat) (w : Worker) (seen : List String) : List ValidationError :=
  let rowId := workerRowId w index
  (if w.WorkerID = "" then
    [⟨"worker_" ++ natToString index ++ "_no_id", .error, .workers, rowId,
      some "WorkerID", "WorkerID is required",
      some "Add a unique identifier for this worker"⟩]
  else []) ++
  (if w.WorkerName = "" then
    [⟨"worker_" ++ natToString index ++ "_no_name", .error, .workers, rowId,
      some "WorkerName", "Worker name is required",
      some "Add a name for this worker"⟩]
  else []) ++
  (if w.WorkerID ≠ "" ∧ seen.contains w.WorkerID then
    [⟨"worker_" ++ natToString index ++ "_duplicate_id", .error, .workers, rowId,
      some "WorkerID", "Duplicate WorkerID: " ++ w.WorkerID,
      some "Change to a unique identifier"⟩]
  else []) ++
  (if w.AvailableSlots.length = 0 then
    [⟨"worker_" ++ natToString index ++ "_no_slots", .error, .workers, rowId,
      some "AvailableSlots", "AvailableSlots must be a non-empty array of numbers",
      some "Add available time slots as numbers"⟩]
  else []) ++
  (if w.MaxLoadPerPhase < 1 then
    [⟨"worker_" ++ natToString index ++ "_invalid_load", .error, .workers, rowId,
      some "MaxLoadPerPhase", "MaxLoadPerPhase must be at least 1",
      some "Set to a positive number"⟩]
  else []) ++
  (if (w.AvailableSlots.length : Int) < w.MaxLoadPerPhase then
    [⟨"worker_" ++ natToString index ++ "_overloaded", .warning, .workers, rowId,
      some "MaxLoadPerPhase", "MaxLoadPerPhase exceeds available slots",
      some "Reduce MaxLoadPerPhase or add more available slots"⟩]
  else []) ++
  (if w.AttributesJSON.invalid then
    [⟨"worker_" ++ natToString index ++ "_invalid_json", .error, .workers, rowId,
      some "AttributesJSON", "Invalid JSON format in AttributesJSON",
      some "Fix JSON syntax or leave empty"⟩]
  else [])

/-- The `seenIds` update of one `validateWorkers` iteration. -/
def workerSeenStep (seen : List String) (w : Worker) : List String :=
  if w.WorkerID ≠ "" ∧ ¬ seen.contains w.WorkerID then w.WorkerID :: seen else seen

/-- The `workers.forEach` loop of `validateWorkers`. -/
def validateWorkersAux : List String → Nat → List Worker → List ValidationError
  | _, _, [] => []
  | seen, index, w :: rest =>
      workerFindings index w seen ++
      validateWorkersAux (workerSeenStep seen w) (index + 1) rest

/-- `validateWorkers`. -/
def validateWorkers (workers : List Worker) : List ValidationError :=
  validateWorkersAux [] 0 workers

/-- `task.TaskID || `row_${index}``. -/
def taskRowId (t : Task) (index : Nat) : String :=
  if t.TaskID ≠ "" then t.TaskID else "row_" ++ natToString index

/-- The findings the `validateTasks` loop body pushes for one task. -/
def taskFindings (index : Nat) (t : Task) (seen : List String) : List ValidationError :=
  let rowId := taskRowId t index
  (if t.TaskID = "" then
    [⟨"task_" ++ natToString index ++ "_no_id", .error, .tasks, rowId,
      some "TaskID", "TaskID is required",
      some "Add a unique identifier for this task"⟩]
  else []) ++
  (if t.TaskName = "" then
    [⟨"task_" ++ natToString index ++ "_no_name", .error, .tasks, rowId,
      some "TaskName", "Task name is required",
      some "Add a name for this task"⟩]
  else []) ++
  (if t.TaskID ≠ "" ∧ seen.contains t.TaskID then
    [⟨"task_" ++ natToString index ++ "_duplicate_id", .error, .tasks, rowId,
      some "TaskID", "Duplicate TaskID: " ++ t.TaskID,
      some "Change to a unique identifier"⟩]
  else []) ++
  (if t.Duration < 1 then
    [⟨"task_" ++ natToString index ++ "_invalid_duration", .error, .tasks, rowId,
      some "Duration", "Duration must be at least 1",
      some "Set to a positive number of time units"⟩]
  else []) ++
  (if t.MaxConcurrent < 1 then
    [⟨"task_" ++ natToString index ++ "_invalid_concurrent", .error, .tasks, rowId,
      some "MaxConcurrent", "MaxConcurrent must be at least 1",
      some "Set to a positive number"⟩]
  else []) ++
  (if t.AttributesJSON.invalid then
    [⟨"task_" ++ natToString index ++ "_invalid_json", .error, .tasks, rowId,
      some "AttributesJSON", "Invalid JSON format in AttributesJSON",
      some "Fix JSON syntax or leave empty"⟩]
  else [])

/-- The `seenIds` update of one `validateTasks` iteration. -/
def taskSeenStep (seen : List String) (t : Task) : List String :=
  if t.TaskID ≠ "" ∧ ¬ seen.contains t.TaskID then t.TaskID :: seen else seen

/-- The `tasks.forEach` loop of `validateTasks`. -/
def validateTasksAux : List String → Nat → List Task → List ValidationError
  | _, _, [] => []
  | seen, index, t :: rest =>
      taskFindings index t seen ++
      validateTasksAux (taskSeenStep seen t) (index + 1) rest

/-- `validateTasks`. -/
def validateTasks (tasks : List Task) : List ValidationError :=
  validateTasksAux [] 0 tasks

/-! ## Cross-entity validator (`validateCrossEntityReferences`) -/

/-- `new Set(tasks.map(t => t.TaskID).filter(Boolean))` — membership only. -/
def taskIdSet (tasks : List Task) : List String :=
  (tasks.map Task.TaskID).filter (fun s => s != "")

/-- `new Set(workers.flatMap(w => w.Skills))` — membership only. -/
def allSkillsSet (workers : List Worker) : List String :=
  workers.flatMap Worker.Skills

/-- Unknown-task-reference findings for one client. -/
def clientRefFindings (taskIds : List String) (index : Nat) (c : Client) :
    List ValidationError :=
  let rowId := clientRowId c index
  c.RequestedTaskIDs.filterMap (fun taskId =>
    if ¬ taskIds.contains taskId then
      some ⟨"client_" ++ natToString index ++ "_unknown_task_" ++ taskId, .error,
        .clients, rowId, some "RequestedTaskIDs",
        "Unknown task reference: " ++ taskId,
        some "Remove reference or add the missing task"⟩
    else none)

/-- The `clients.forEach` loop of the cross-entity pass. -/
def crossClientsAux (taskIds : List String) : Nat → List Client → List ValidationError
  | _, [] => []
  | index, c :: rest =>
      clientRefFindings taskIds index c ++ crossClientsAux taskIds (index + 1) rest

/-- `workers.filter(w => task.RequiredSkills.every(skill => w.Skills.includes(skill)))`. -/
def qualifiedWorkers (workers : List Worker) (t : Task) : List Worker :=
  workers.filter (fun w => t.RequiredSkills.all (fun skill => w.Skills.contains skill))

/-- Skill-coverage and concurrency-feasibility findings for one task. -/
def taskCrossFindings (allSkills : List String) (workers : List Worker)
    (index : Nat) (t : Task) : List ValidationError :=
  let rowId := taskRowId t index
  (t.RequiredSkills.filterMap (fun skill =>
    if ¬ allSkills.contains skill then
      some ⟨"task_" ++ natToString index ++ "_missing_skill_" ++ skill, .warning,
        .tasks, rowId, some "RequiredSkills",
        "No workers have required skill: " ++ skill,
        some "Add workers with this skill or remove the requirement"⟩
    else none)) ++
  (if ((qualifiedWorkers workers t).length : Int) < t.MaxConcurrent then
    [⟨"task_" ++ natToString index ++ "_insufficient_workers", .warning, .tasks, rowId,
      some "MaxConcurrent",
      "MaxConcurrent (" ++ intToString t.MaxConcurrent ++ ") exceeds qualified workers ("
        ++ natToString (qualifiedWorkers workers t).length ++ ")",
      some "Reduce MaxConcurrent or add more qualified workers"⟩]
  else [])

/-- The `tasks.forEach` loop of the cross-entity pass. -/
def crossTasksAux (allSkills : List String) (workers : List Worker) :
    Nat → List Task → List ValidationError
  | _, [] => []
  | index, t :: rest =>
      taskCrossFindings allSkills workers index t ++
      crossTasksAux allSkills workers (index + 1) rest

/-- `validateCrossEntityReferences`. -/
def validateCrossEntityReferences (clients : List Client) (workers : List Worker)
    (tasks : List Task) : List ValidationError :=
  crossClientsAux (taskIdSet tasks) 0 clients ++
  crossTasksAux (allSkillsSet workers) workers 0 tasks

/-! ## Advanced constraints (`validateAdvancedConstraints`) -/

/-- JavaScript `Map.get`: the value at `k`, if present. -/
def mapFind : List (Int × Int) → Int → Option Int
  | [], _ => none
  | e :: rest, k => if e.1 = k then some e.2 else mapFind rest k

/-- JavaScript `Map.set`: update in place (insertion order kept) or append. -/
def mapSet (m : List (Int × Int)) (k v : Int) : List (Int × Int) :=
  match m with
  | [] => [(k, v)]
  | e :: rest => if e.1 = k then (k, v) :: rest else e :: mapSet rest k v

/-- The keys of a modelled `Map`, in insertion order. -/
def mapKeys (m : List (Int × Int)) : List Int :=
  m.map Prod.fst

/-- `phaseSlotMap`: for each slot number, the summed `MaxLoadPerPhase` of the
workers offering it (`map.set(slot, (map.get(slot) || 0) + w.MaxLoadPerPhase)`). -/
def phaseSlotMap (workers : List Worker) : List (Int × Int) :=
  workers.foldl
    (fun m w =>
      w.AvailableSlots.foldl
        (fun m2 slot => mapSet m2 slot ((mapFind m2 slot).getD 0 + w.MaxLoadPerPhase))
        m)
    []

/-- `phaseDemandMap`: for each preferred phase, the summed `Duration` of the
tasks preferring it. -/
def phaseDemandMap (tasks : List Task) : List (Int × Int) :=
  tasks.foldl
    (fun m t =>
      t.PreferredPhases.foldl
        (fun m2 phase => mapSet m2 phase ((mapFind m2 phase).getD 0 + t.Duration))
        m)
    []

/-- The finding id `phase_${phase}_oversaturated`. -/
def oversatId (phase : Int) : String :=
  "phase_" ++ intToString phase ++ "_oversaturated"

/-- The oversaturation warning for one phase. -/
def oversatFinding (phase demand supply : Int) : ValidationError :=
  ⟨"phase_" ++ intToString phase ++ "_oversaturated", .warning, .tasks, "system",
    none,
    "Phase " ++ intToString phase ++ " is oversaturated: demand (" ++ intToString demand
      ++ ") exceeds supply (" ++ intToString supply ++ ")",
    some "Redistribute tasks across phases or add more worker capacity"⟩

/-- `validateAdvancedConstraints`. -/
def validateAdvancedConstraints (_clients : List Client) (workers : List Worker)
    (tasks : List Task) : List ValidationError :=
  let slotMap := phaseSlotMap workers
  (phaseDemandMap tasks).filterMap (fun e =>
    let supply := (mapFind slotMap e.1).getD 0
    if supply < e.2 then some (oversatFinding e.1 e.2 supply) else none)

/-- `validateData`: the full Validator. -/
def validateData (clients : List Client) (workers : List Worker) (tasks : List Task) :
    List ValidationError :=
  validateClients clients ++ validateWorkers workers ++ validateTasks tasks ++
  validateCrossEntityReferences clients workers tasks ++
  validateAdvancedConstraints clients workers tasks

/-! ## Regular-expression matchers (`src/utils/nlpSearch.ts`,
`src/components/BusinessRulesEditor.tsx`)

Each source regex is embedded as a scanner with JavaScript `match`
semantics: the pattern is tried at every position left to right
(`scanFirst`), alternatives in the order written, greedy quantifiers.
For these particular patterns greedy matching with backtracking reduces
to the direct functional reading implemented here, because every
alternative and every capture class starts with a character disjoint
from what the preceding quantifier consumes. -/

/-- Try a pattern at every start position, leftmost match first. -/
def scanFirst (f : List Char → Option α) : List Char → Option α
  | [] => f []
  | c :: rest =>
      match f (c :: rest) with
      | some a => some a
      | none => scanFirst f rest

/-- Match a literal, returning the remainder. -/
def dropLit : List Char → List Char → Option (List Char)
  | [], cs => some cs
  | _ :: _, [] => none
  | l :: ls, c :: cs => if c = l then dropLit ls cs else none

/-- Match a literal case-insensitively (for `/i` patterns). -/
def dropLitCI : List Char → List Char → Option (List Char)
  | [], cs => some cs
  | _ :: _, [] => none
  | l :: ls, c :: cs => if c.toLower = l.toLower then dropLitCI ls cs else none

/-- `\s+`: at least one whitespace character, greedy. -/
def dropWsPlus : List Char → Option (List Char)
  | [] => none
  | c :: cs => if isWsChar c then some (cs.dropWhile isWsChar) else none

/-- `\d+`: at least one digit, greedy; returns (digits, remainder). -/
def matchDigits (cs : List Char) : Option (List Char × List Char) :=
  let ds := cs.takeWhile Char.isDigit
  if ds.isEmpty then none else some (ds, cs.dropWhile Char.isDigit)

/-- Try keyword alternatives in order, continuing with `k` after the one
that lets the rest of the pattern succeed (regex alternation backtracking). -/
def tryKw (k : List Char → Option α) : List String → List Char → Option α
  | [], _ => none
  | kw :: rest, cs =>
      match (dropLit kw.data cs).bind k with
      | some a => some a
      | none => tryKw k rest cs

/-- JavaScript `split` on a single-character separator class. -/
def splitOnPred (p : Char → Bool) : List Char → List (List Char)
  | [] => [[]]
  | c :: rest =>
      if p c then [] :: splitOnPred p rest
      else
        match splitOnPred p rest with
        | f :: fs => (c :: f) :: fs
        | [] => [[c]]

/-- JavaScript `parseInt` on an already-trimmed string: optional sign, then
a digit prefix; `none` is `NaN`. -/
def parseIntJS (s : String) : Option Int :=
  match s.data with
  | '-' :: rest => (matchDigits rest).map (fun p => -(decDigits p.1 : Int))
  | '+' :: rest => (matchDigits rest).map (fun p => (decDigits p.1 : Int))
  | cs => (matchDigits cs).map (fun p => (decDigits p.1 : Int))

/-- Operator alternatives of the duration pattern, in source order. -/
def durationOps : List String :=
  [">", "<", ">=", "<=", "=", "more than", "less than", "equal to", "equals"]

/-- Operator alternatives of the priority pattern, in source order. -/
def priorityOps : List String := [">", "<", ">=", "<=", "=", "level"]

/-- After the head word: `\s*(op)\s*(\d+)`; alternatives in order with
backtracking into the next alternative when the digits fail. -/
def matchOpNum : List String → List Char → Option (String × List Char)
  | [], _ => none
  | op :: rest, cs =>
      match dropLit op.data cs with
      | some r =>
          match matchDigits (r.dropWhile isWsChar) with
          | some (ds, _) => some (op, ds)
          | none => matchOpNum rest cs
      | none => matchOpNum rest cs

/-- `/duration\s*(>|<|>=|<=|=|more than|less than|equal to|equals)\s*(\d+)/`
at one position. -/
def durationAt (cs : List Char) : Option (String × List Char) :=
  (dropLit "duration".data cs).bind fun r => matchOpNum durationOps (r.dropWhile isWsChar)

/-- `/priority\s*(>|<|>=|<=|=|level)\s*(\d+)/` at one position. -/
def priorityAt (cs : List Char) : Option (String × List Char) :=
  (dropLit "priority".data cs).bind fun r => matchOpNum priorityOps (r.dropWhile isWsChar)

/-- First branch `phase\s*(\d+)` of the phase pattern at one position. -/
def phaseBranch1 (cs : List Char) : Option (List Char) :=
  (dropLit "phase".data cs).bind fun r =>
    (matchDigits (r.dropWhile isWsChar)).map Prod.fst

/-- Greedy `(?:,\s*\d+)*`, accumulating the matched characters into the
capture. -/
def commaRep : Nat → List Char → List Char → List Char × List Char
  | 0, acc, cs => (acc, cs)
  | f + 1, acc, cs =>
      match cs with
      | ',' :: r =>
          (match matchDigits (r.dropWhile isWsChar) with
           | some (ds, rest) => commaRep f (acc ++ [','] ++ r.takeWhile isWsChar ++ ds) rest
           | none => (acc, cs))
      | _ => (acc, cs)

/-- `\s*` then the capture `(\d+(?:,\s*\d+)*)`. -/
def phaseListCore (r : List Char) : Option (List Char) :=
  match matchDigits (r.dropWhile isWsChar) with
  | some (ds, rest) => some (commaRep rest.length ds rest).1
  | none => none

/-- Second branch `phases?\s*(\d+(?:,\s*\d+)*)` of the phase pattern at one
position (`[s]?` greedy, with backtracking to the empty match). -/
def phaseBranch2 (cs : List Char) : Option (List Char) :=
  (dropLit "phase".data cs).bind fun r =>
    match r with
    | 's' :: r2 =>
        (match phaseListCore r2 with
         | some cap => some cap
         | none => phaseListCore r)
    | _ => phaseListCore r

/-- `/phase\s*(\d+)|phases?\s*(\d+(?:,\s*\d+)*)/` at one position:
`phaseMatch[1] || phaseMatch[2]`. -/
def phaseAt (cs : List Char) : Option (List Char) :=
  match phaseBranch1 cs with
  | some cap => some cap
  | none => phaseBranch2 cs

/-- Character class `[a-zA-Z\s,]`. -/
def isSkillCapChar (c : Char) : Bool :=
  c.isAlpha || isWsChar c || c = ','

/-- Character class `[a-zA-Z\s]`. -/
def isAlphaWsChar (c : Char) : Bool :=
  c.isAlpha || isWsChar c

/-- `\s+` then a nonempty greedy capture of `capPred` characters. -/
def wsThenCapture (capPred : Char → Bool) (r : List Char) : Option (List Char) :=
  (dropWsPlus r).bind fun r2 =>
    let cap := r2.takeWhile capPred
    if cap.isEmpty then none else some cap

/-- `/skill[s]?\s+(?:include|having|with)\s+([a-zA-Z\s,]+)/` at one position. -/
def skillsAt (cs : List Char) : Option (List Char) :=
  (dropLit "skill".data cs).bind fun r =>
    let core := fun (r2 : List Char) =>
      (dropWsPlus r2).bind
        (tryKw (wsThenCapture isSkillCapChar) ["include", "having", "with"])
    match r with
    | 's' :: r2 =>
        (match core r2 with
         | some cap => some cap
         | none => core r)
    | _ => core r

/-- `/(?:location|in|at)\s+([a-zA-Z\s]+)/` at one position. -/
def locationAt (cs : List Char) : Option (List Char) :=
  tryKw (wsThenCapture isAlphaWsChar) ["location", "in", "at"] cs

/-- `/name[s]?\s+(?:include|containing|with)\s+([a-zA-Z\s]+)/` at one
position. -/
def nameAt (cs : List Char) : Option (List Char) :=
  (dropLit "name".data cs).bind fun r =>
    let core := fun (r2 : List Char) =>
      (dropWsPlus r2).bind
        (tryKw (wsThenCapture isAlphaWsChar) ["include", "containing", "with"])
    match r with
    | 's' :: r2 =>
        (match core r2 with
         | some cap => some cap
         | none => core r)
    | _ => core r

/-! ## Natural-language search (`src/utils/nlpSearch.ts`) -/

/-- `SearchCriteria`. -/
structure SearchCriteria where
  duration : Option (String × Int) := none
  priority : Option (String × Int) := none
  phase : Option (List Int) := none
  skills : Option (List String) := none
  location : Option String := none
  name : Option String := none
deriving DecidableEq

/-- `extractSearchCriteria` (the `tokens` parameter is accepted and unused,
as in the source). -/
def extractSearchCriteria (query : String) (_tokens : List String) : SearchCriteria :=
  let q := query.data
  { duration := (scanFirst durationAt q).map (fun p =>
      let op := p.1
      let op := if op = "more than" then ">" else op
      let op := if op = "less than" then "<" else op
      let op := if op = "equal to" ∨ op = "equals" then "=" else op
      (op, (decDigits p.2 : Int)))
    priority := (scanFirst priorityAt q).map (fun p =>
      (if p.1 = "level" then "=" else p.1, (decDigits p.2 : Int)))
    phase := (scanFirst phaseAt q).map (fun cap =>
      (splitOnPred (fun c => c = ',') cap).filterMap
        (fun piece => parseIntJS (trimJS (String.mk piece))))
    skills := (scanFirst skillsAt q).map (fun cap =>
      (splitOnPred (fun c => c = ',') cap).map
        (fun piece => toLowerJS (trimJS (String.mk piece))))
    location := (scanFirst locationAt q).map (fun cap => toLowerJS (trimJS (String.mk cap)))
    name := (scanFirst nameAt q).map (fun cap => toLowerJS (trimJS (String.mk cap))) }

/-- The scorer reads `task.Name`; the `Task` record (src/types/data.ts) has
`TaskName` and no `Name` property, so the access yields `undefined`. -/
def taskNameProp (_t : Task) : Option String := none

/-- The scorer reads `task.PriorityLevel`; `Task` has no such property. -/
def taskPriorityProp (_t : Task) : Option Int := none

/-- The scorer reads `worker.Name`; `Worker` has `WorkerName` only. -/
def workerNameProp (_w : Worker) : Option String := none

/-- The scorer reads `worker.Location`; `Worker` has no such property. -/
def workerLocationProp (_w : Worker) : Option String := none

/-- The scorer reads `client.Name`; `Client` has `ClientName` only. -/
def clientNameProp (_c : Client) : Option String := none

/-- The scorer reads `client.Location`; `Client` has no such property. -/
def clientLocationProp (_c : Client) : Option String := none

/-- The scorer reads `client.ContactInfo`; `Client` has no such property. -/
def clientContactInfoProp (_c : Client) : Option String := none

/-- The five-way `switch (operator)` of the duration block. -/
def cmpOpFull (op : String) (a v : Int) : Bool :=
  if op = ">" then decide (v < a)
  else if op = "<" then decide (a < v)
  else if op = ">=" then decide (v ≤ a)
  else if op = "<=" then decide (a ≤ v)
  else if op = "=" then decide (a = v)
  else false

/-- The three-way `switch (operator)` of the priority block
(`>=` and `<=` fall through to no match). -/
def cmpOpTri (op : String) (a v : Int) : Bool :=
  if op = ">" then decide (v < a)
  else if op = "<" then decide (a < v)
  else if op = "=" then decide (a = v)
  else false

/-- `undefined`-tolerant `Array.prototype.join(' ')`: absent values become
empty strings, as in JavaScript. -/
def joinSp (parts : List String) : String :=
  String.intercalate " " parts

/-- `scoreTaskMatch`. -/
def scoreTaskMatch (t : Task) (criteria : SearchCriteria) (query : String) : Nat :=
  let dScore : Nat := match criteria.duration with
    | some (op, v) => if cmpOpFull op t.Duration v then 10 else 0
    | none => 0
  let pScore : Nat := match criteria.priority, taskPriorityProp t with
    | some (op, v), some pl => if cmpOpTri op pl v then 8 else 0
    | _, _ => 0
  let phScore : Nat := match criteria.phase with
    | some ps => if ps.any (fun p => t.PreferredPhases.contains p) then 6 else 0
    | none => 0
  let skScore : Nat := match criteria.skills with
    | some ks =>
        (ks.filter (fun skill =>
          t.RequiredSkills.any (fun rs => containsSub (toLowerJS rs) skill))).length * 4
    | none => 0
  let nmScore : Nat := match criteria.name, taskNameProp t with
    | some n, some nm =>
        if n ≠ "" ∧ nm ≠ "" ∧ containsSub (toLowerJS nm) n then 5 else 0
    | _, _ => 0
  let score := dScore + pScore + phScore + skScore + nmScore
  if score = 0 then
    let searchableText :=
      toLowerJS (joinSp ([(taskNameProp t).getD "", t.TaskID] ++ t.RequiredSkills))
    let queryWords := splitWsJS query
    (queryWords.filter (fun word => containsSub searchableText (toLowerJS word))).length * 2
  else score

/-- `scoreWorkerMatch`. -/
def scoreWorkerMatch (w : Worker) (criteria : SearchCriteria) (query : String) : Nat :=
  let skScore : Nat := match criteria.skills with
    | some ks =>
        (ks.filter (fun skill =>
          w.Skills.any (fun ws => containsSub (toLowerJS ws) skill))).length * 6
    | none => 0
  let locScore : Nat := match criteria.location, workerLocationProp w with
    | some loc, some wl =>
        if loc ≠ "" ∧ wl ≠ "" ∧ containsSub (toLowerJS wl) loc then 8 else 0
    | _, _ => 0
  let nmScore : Nat := match criteria.name, workerNameProp w with
    | some n, some nm =>
        if n ≠ "" ∧ nm ≠ "" ∧ containsSub (toLowerJS nm) n then 5 else 0
    | _, _ => 0
  let score := skScore + locScore + nmScore
  if score = 0 then
    let searchableText :=
      toLowerJS (joinSp ([(workerNameProp w).getD "", w.WorkerID,
        (workerLocationProp w).getD ""] ++ w.Skills))
    let queryWords := splitWsJS query
    (queryWords.filter (fun word => containsSub searchableText (toLowerJS word))).length * 2
  else score

/-- `scoreClientMatch`. -/
def scoreClientMatch (c : Client) (criteria : SearchCriteria) (query : String) : Nat :=
  let locScore : Nat := match criteria.location, clientLocationProp c with
    | some loc, some cl =>
        if loc ≠ "" ∧ cl ≠ "" ∧ containsSub (toLowerJS cl) loc then 8 else 0
    | _, _ => 0
  let nmScore : Nat := match criteria.name, clientNameProp c with
    | some n, some nm =>
        if n ≠ "" ∧ nm ≠ "" ∧ containsSub (toLowerJS nm) n then 5 else 0
    | _, _ => 0
  let score := locScore + nmScore
  if score = 0 then
    let searchableText :=
      toLowerJS (joinSp [(clientNameProp c).getD "", c.ClientID,
        (clientLocationProp c).getD "", (clientContactInfoProp c).getD ""])
    let queryWords := splitWsJS query
    (queryWords.filter (fun word => containsSub searchableText (toLowerJS word))).length * 2
  else score

/-- Duck-typed view of a record as `generateMatchDescription` reads it:
each field is the property of that name, absent (`none`) when the record
type does not declare it. -/
structure ItemView where
  DurationProp : Option Int
  PriorityProp : Option Int
  PhasesProp : Option (List Int)
  SkillsProp : Option (List String)
  LocationProp : Option String

/-- `Task` as seen by `generateMatchDescription` (it reads `item.Duration`,
`item.PriorityLevel`, `item.PreferredPhases`, `item.Skills`,
`item.Location`; only the first and third exist on `Task`). -/
def Task.itemView (t : Task) : ItemView :=
  ⟨some t.Duration, none, some t.PreferredPhases, none, none⟩

/-- `Worker` as seen by `generateMatchDescription` (only `Skills` exists). -/
def Worker.itemView (w : Worker) : ItemView :=
  ⟨none, none, none, some w.Skills, none⟩

/-- `Client` as seen by `generateMatchDescription` (none of the read
properties exist on `Client`). -/
def Client.itemView (_c : Client) : ItemView :=
  ⟨none, none, none, none, none⟩

/-- `generateMatchDescription`. -/
def generateMatchDescription (item : ItemView) (criteria : SearchCriteria) : String :=
  let ds : List String :=
    if criteria.duration.isSome then
      match item.DurationProp with
      | some d => if d ≠ 0 then ["Duration: " ++ intToString d] else []
      | none => []
    else []
  let ps : List String :=
    if criteria.priority.isSome then
      match item.PriorityProp with
      | some p => if p ≠ 0 then ["Priority: " ++ intToString p] else []
      | none => []
    else []
  let phs : List String :=
    if criteria.phase.isSome then
      match item.PhasesProp with
      | some l => ["Phases: " ++ String.intercalate ", " (l.map intToString)]
      | none => []
    else []
  let sks : List String :=
    if criteria.skills.isSome then
      match item.SkillsProp with
      | some l => ["Skills: " ++ String.intercalate ", " l]
      | none => []
    else []
  let loc : List String :=
    match item.LocationProp with
    | some l => if l ≠ "" then ["Location: " ++ l] else []
    | none => []
  String.intercalate " | " (ds ++ ps ++ phs ++ sks ++ loc)

/-- `SearchResult` (the source field `match` is a Lean keyword; it is named
`matchText` here). -/
structure SearchResult where
  entity : EntityKind
  id : String
  matchText : String
  score : Nat
deriving DecidableEq

/-- Stable insertion of `x` after every element `y` with `le y x` — the
ECMAScript stable-sort semantics of `Array.prototype.sort`. -/
def insertOrd (le : α → α → Bool) (x : α) : List α → List α
  | [] => [x]
  | y :: ys => if le y x then y :: insertOrd le x ys else x :: y :: ys

/-- Stable sort by `le` (ties keep encounter order), modelling the
`results.sort((a, b) => b.score - a.score)` call. -/
def sortStable (le : α → α → Bool) (l : List α) : List α :=
  l.foldl (fun acc x => insertOrd le x acc) []

/-- `searchWithNaturalLanguage`. -/
def searchWithNaturalLanguage (query : String) (clients : List Client)
    (workers : List Worker) (tasks : List Task) : List SearchResult :=
  let queryLower := toLowerJS query
  let tokens := splitWsJS queryLower
  let criteria := extractSearchCriteria queryLower tokens
  let taskResults := tasks.filterMap (fun t =>
    let score := scoreTaskMatch t criteria queryLower
    if 0 < score then
      some ⟨.tasks, t.TaskID, generateMatchDescription t.itemView criteria, score⟩
    else none)
  let workerResults := workers.filterMap (fun w =>
    let score := scoreWorkerMatch w criteria queryLower
    if 0 < score then
      some ⟨.workers, w.WorkerID, generateMatchDescription w.itemView criteria, score⟩
    else none)
  let clientResults := clients.filterMap (fun c =>
    let score := scoreClientMatch c criteria queryLower
    if 0 < score then
      some ⟨.clients, c.ClientID, generateMatchDescription c.itemView criteria, score⟩
    else none)
  sortStable (fun a b => decide (b.score ≤ a.score))
    (taskResults ++ workerResults ++ clientResults)

/-! ## Rule Suggestion Extractor
(`generateRuleSuggestions` in `src/components/BusinessRulesEditor.tsx`)

The source function is `async` with a simulated delay and also receives the
application state, which none of its branches read; the embedding is the
pure result, with `Date.now()` passed in as `now`. -/

/-- Typed parameter maps of the three suggestion kinds. -/
inductive RuleParams where
  | coRunP (tasks : List String)
  | loadLimitP (workerGroup : String) (maxSlotsPerPhase : Int)
  | phaseWindowP (taskId : String) (allowedPhases : List Int)
deriving DecidableEq

/-- `RuleSuggestion`. -/
structure RuleSuggestion where
  id : String
  type : String
  title : String
  description : String
  confidence : Nat
  parameters : RuleParams
  reasoning : String
deriving DecidableEq

/-- `/t\d+/gi`: all matches of `t`/`T` followed by digits, in order,
continuing after each match (global flag). -/
def taskTokensFuel : Nat → List Char → List (List Char)
  | 0, _ => []
  | _ + 1, [] => []
  | f + 1, c :: rest =>
      if c.toLower = 't' then
        match matchDigits rest with
        | some (ds, after) => (c :: ds) :: taskTokensFuel f after
        | none => taskTokensFuel f rest
      else taskTokensFuel f rest

/-- All `/t\d+/gi` matches of `input`, with original casing. -/
def taskTokens (input : String) : List String :=
  (taskTokensFuel input.data.length input.data).map String.mk

/-- `/t\d+/i`: the first task token only. -/
def firstTaskToken (input : String) : Option String :=
  (scanFirst
    (fun cs =>
      match cs with
      | c :: rest =>
          if c.toLower = 't' then (matchDigits rest).map (fun p => c :: p.1) else none
      | [] => none)
    input.data).map String.mk

/-- `/(\d+)/`: the first digit run. -/
def firstNumber (input : String) : Option (List Char) :=
  (scanFirst (fun cs => (matchDigits cs).map Prod.fst) input.data).map id

/-- JavaScript `\w`: `[A-Za-z0-9_]`. -/
def isWordChar (c : Char) : Bool :=
  c.isAlpha || c.isDigit || c = '_'

/-- `/(\w+)\s+(?:workers|group|team)/i` at one position: the maximal word
run (shorter runs cannot be followed by whitespace), then `\s+`, then one of
the keywords case-insensitively. -/
def groupAt (cs : List Char) : Option (List Char) :=
  let run := cs.takeWhile isWordChar
  if run.isEmpty then none
  else
    ((dropWsPlus (cs.dropWhile isWordChar)).bind fun r =>
      match dropLitCI "workers".data r with
      | some _ => some run
      | none =>
          match dropLitCI "group".data r with
          | some _ => some run
          | none => (dropLitCI "team".data r).map (fun _ => run))

/-- The first `/(\w+)\s+(?:workers|group|team)/i` capture of `input`. -/
def groupCapture (input : String) : Option String :=
  (scanFirst groupAt input.data).map String.mk

/-- Greedy `(?:[-,]\s*\d+)*` of the phase-window pattern, accumulating the
matched characters into the capture. -/
def dashCommaRep : Nat → List Char → List Char → List Char × List Char
  | 0, acc, cs => (acc, cs)
  | f + 1, acc, cs =>
      match cs with
      | c :: r =>
          if c = '-' ∨ c = ',' then
            match matchDigits (r.dropWhile isWsChar) with
            | some (ds, rest) => dashCommaRep f (acc ++ [c] ++ r.takeWhile isWsChar ++ ds) rest
            | none => (acc, cs)
          else (acc, cs)
      | [] => (acc, cs)

/-- `/phase\s*(\d+(?:[-,]\s*\d+)*)/i` at one position. -/
def phaseSpecAt (cs : List Char) : Option (List Char) :=
  (dropLitCI "phase".data cs).bind fun r =>
    match matchDigits (r.dropWhile isWsChar) with
    | some (ds, rest) => some (dashCommaRep rest.length ds rest).1
    | none => none

/-- The first `/phase\s*(\d+(?:[-,]\s*\d+)*)/i` capture of `input`. -/
def phaseSpecCapture (input : String) : Option String :=
  (scanFirst phaseSpecAt input.data).map String.mk

/-- `phaseMatches[1].split(/[-,]/).map(p => parseInt(p.trim())).filter(n => !isNaN(n))`. -/
def parsePhaseList (cap : String) : List Int :=
  (splitOnPred (fun c => c = '-' || c = ',') cap.data).filterMap
    (fun piece => parseIntJS (trimJS (String.mk piece)))

/-- `generateRuleSuggestions`. -/
def generateRuleSuggestions (now : Nat) (input : String) : List RuleSuggestion :=
  let inputLower := toLowerJS input
  let coRunSugs :=
    if containsSub inputLower "together" || containsSub inputLower "co-run" ||
        containsSub inputLower "same time" then
      let taskMatches := taskTokens input
      if 2 ≤ taskMatches.length then
        [⟨"suggestion_" ++ natToString now ++ "_1", "coRun", "Co-Run Tasks Rule",
          "Tasks " ++ String.intercalate ", " taskMatches ++ " should run together",
          85, .coRunP taskMatches,
          "Detected task IDs and co-execution keywords in input"⟩]
      else []
    else []
  let loadSugs :=
    if containsSub inputLower "load" || containsSub inputLower "limit" ||
        containsSub inputLower "maximum" then
      match firstNumber input, groupCapture input with
      | some num, some grp =>
          [⟨"suggestion_" ++ natToString now ++ "_2", "loadLimit", "Load Limit Rule",
            "Limit " ++ grp ++ " group to " ++ String.mk num ++ " slots per phase",
            78, .loadLimitP (toUpperJS grp) (decDigits num : Int),
            "Detected load limiting pattern with specific group and number"⟩]
      | _, _ => []
    else []
  let phaseSugs :=
    if containsSub inputLower "phase" &&
        (containsSub inputLower "only" || containsSub inputLower "restrict") then
      match firstTaskToken input, phaseSpecCapture input with
      | some tok, some cap =>
          let phases := parsePhaseList cap
          [⟨"suggestion_" ++ natToString now ++ "_3", "phaseWindow", "Phase Window Rule",
            "Restrict " ++ tok ++ " to phases "
              ++ String.intercalate ", " (phases.map intToString),
            82, .phaseWindowP (toUpperJS tok) phases,
            "Detected phase restriction pattern with specific task and phases"⟩]
      | _, _ => []
    else []
  coRunSugs ++ loadSugs ++ phaseSugs

/-! ## Application state and reducer (`dataReducer`, data context) -/

/-- `BusinessRule` (its `type` is a string union in the source and the
reducer writes `suggestion.type as any` into it, so it is a `String` here). -/
structure BusinessRule where
  id : String
  name : String
  description : String
  type : String
  parameters : RuleParams
  priority : Int
  active : Bool
  createdAt : String
deriving DecidableEq

/-- `PrioritySettings`. -/
structure PrioritySettings where
  priorityLevel : Int
  taskFulfillment : Int
  fairnessConstraints : Int
  skillMatching : Int
  phaseOptimization : Int
  workloadBalance : Int
  clientSatisfaction : Int
  resourceUtilization : Int
deriving DecidableEq

/-- `DataState`. -/
structure DataState where
  clients : List Client
  workers : List Worker
  tasks : List Task
  validationErrors : List ValidationError
  businessRules : List BusinessRule
  ruleSuggestions : List RuleSuggestion
  prioritySettings : PrioritySettings
  priorityProfile : String
  isLoading : Bool
deriving DecidableEq

/-- `Partial<Client>`: fields present in the patch override the record
(`{ ...client, ...payload.client }`). -/
structure ClientPatch where
  ClientID : Option String := none
  ClientName : Option String := none
  PriorityLevel : Option Int := none
  RequestedTaskIDs : Option (List String) := none
  GroupTag : Option String := none
  AttributesJSON : Option AttrVal := none

/-- `{ ...client, ...patch }`. -/
def applyClientPatch (c : Client) (p : ClientPatch) : Client :=
  ⟨p.ClientID.getD c.ClientID, p.ClientName.getD c.ClientName,
   p.PriorityLevel.getD c.PriorityLevel, p.RequestedTaskIDs.getD c.RequestedTaskIDs,
   p.GroupTag.getD c.GroupTag, p.AttributesJSON.getD c.AttributesJSON⟩

/-- `Partial<Worker>`. -/
structure WorkerPatch where
  WorkerID : Option String := none
  WorkerName : Option String := none
  Skills : Option (List String) := none
  AvailableSlots : Option (List Int) := none
  MaxLoadPerPhase : Option Int := none
  WorkerGroup : Option String := none
  QualificationLevel : Option Int := none
  AttributesJSON : Option AttrVal := none

/-- `{ ...worker, ...patch }`. -/
def applyWorkerPatch (w : Worker) (p : WorkerPatch) : Worker :=
  ⟨p.WorkerID.getD w.WorkerID, p.WorkerName.getD w.WorkerName,
   p.Skills.getD w.Skills, p.AvailableSlots.getD w.AvailableSlots,
   p.MaxLoadPerPhase.getD w.MaxLoadPerPhase, p.WorkerGroup.getD w.WorkerGroup,
   p.QualificationLevel.getD w.QualificationLevel, p.AttributesJSON.getD w.AttributesJSON⟩

/-- `Partial<Task>`. -/
structure TaskPatch where
  TaskID : Option String := none
  TaskName : Option String := none
  Category : Option String := none
  Duration : Option Int := none
  RequiredSkills : Option (List String) := none
  PreferredPhases : Option (List Int) := none
  MaxConcurrent : Option Int := none
  AttributesJSON : Option AttrVal := none

/-- `{ ...task, ...patch }`. -/
def applyTaskPatch (t : Task) (p : TaskPatch) : Task :=
  ⟨p.TaskID.getD t.TaskID, p.TaskName.getD t.TaskName, p.Category.getD t.Category,
   p.Duration.getD t.Duration, p.RequiredSkills.getD t.RequiredSkills,
   p.PreferredPhases.getD t.PreferredPhases, p.MaxConcurrent.getD t.MaxConcurrent,
   p.AttributesJSON.getD t.AttributesJSON⟩

/-- `Partial<BusinessRule>`. -/
structure RulePatch where
  id : Option String := none
  name : Option String := none
  description : Option String := none
  type : Option String := none
  parameters : Option RuleParams := none
  priority : Option Int := none
  active : Option Bool := none
  createdAt : Option String := none

/-- `{ ...rule, ...patch }`. -/
def applyRulePatch (r : BusinessRule) (p : RulePatch) : BusinessRule :=
  ⟨p.id.getD r.id, p.name.getD r.name, p.description.getD r.description,
   p.type.getD r.type, p.parameters.getD r.parameters, p.priority.getD r.priority,
   p.active.getD r.active, p.createdAt.getD r.createdAt⟩

/-- `DataAction`. -/
inductive DataAction where
  | updateClients (payload : List Client)
  | updateWorkers (payload : List Worker)
  | updateTasks (payload : List Task)
  | updateClient (id : String) (client : ClientPatch)
  | updateWorker (id : String) (worker : WorkerPatch)
  | updateTask (id : String) (task : TaskPatch)
  | setValidationErrors (payload : List ValidationError)
  | addBusinessRule (payload : BusinessRule)
  | updateBusinessRule (id : String) (rule : RulePatch)
  | deleteBusinessRule (payload : String)
  | setRuleSuggestions (payload : List RuleSuggestion)
  | acceptRuleSuggestion (payload : String)
  | dismissRuleSuggestion (payload : String)
  | setPrioritySettings (payload : PrioritySettings)
  | setPriorityProfile (payload : String)
  | setLoading (payload : Bool)

/-- `dataReducer` (src/unnamed/part_000). `now`/`nowIso` stand for
`Date.now()` and `new Date().toISOString()` in the accept branch. -/
def dataReducer (state : DataState) (action : DataAction) (now : Nat)
    (nowIso : String) : DataState :=
  match action with
  | .updateClients payload => { state with clients := payload }
  | .updateWorkers payload => { state with workers := payload }
  | .updateTasks payload => { state with tasks := payload }
  | .updateClient id patch =>
      { state with clients := state.clients.map (fun c =>
          if c.ClientID = id then applyClientPatch c patch else c) }
  | .updateWorker id patch =>
      { state with workers := state.workers.map (fun w =>
          if w.WorkerID = id then applyWorkerPatch w patch else w) }
  | .updateTask id patch =>
      { state with tasks := state.tasks.map (fun t =>
          if t.TaskID = id then applyTaskPatch t patch else t) }
  | .setValidationErrors payload => { state with validationErrors := payload }
  | .addBusinessRule payload =>
      { state with businessRules := state.businessRules ++ [payload] }
  | .updateBusinessRule id patch =>
      { state with businessRules := state.businessRules.map (fun r =>
          if r.id = id then applyRulePatch r patch else r) }
  | .deleteBusinessRule payload =>
      { state with businessRules := state.businessRules.filter (fun r => r.id != payload) }
  | .setRuleSuggestions payload => { state with ruleSuggestions := payload }
  | .acceptRuleSuggestion payload =>
      match state.ruleSuggestions.find? (fun s => s.id == payload) with
      | some sug =>
          let newRule : BusinessRule :=
            ⟨"rule_" ++ natToString now, sug.title, sug.description, sug.type,
             sug.parameters, 50, true, nowIso⟩
          { state with
              businessRules := state.businessRules ++ [newRule]
              ruleSuggestions := state.ruleSuggestions.filter (fun s => s.id != payload) }
      | none => state
  | .dismissRuleSuggestion payload =>
      { state with ruleSuggestions := state.ruleSuggestions.filter (fun s => s.id != payload) }
  | .setPrioritySettings payload => { state with prioritySettings := payload }
  | .setPriorityProfile payload => { state with priorityProfile := payload }
  | .setLoading payload => { state with isLoading := payload }

/-! ## Export gating (`src/components/ExportControls.tsx`) -/

/-- `state.validationErrors.some(e => e.type === 'error')`. -/
def hasErrorsState (s : DataState) : Bool :=
  s.validationErrors.any (fun e =>
    match e.type with
    | .error => true
    | .warning => false)

/-- `state.validationErrors.some(e => e.type === 'warning')`. -/
def hasWarningsState (s : DataState) : Bool :=
  s.validationErrors.any (fun e =>
    match e.type with
    | .error => false
    | .warning => true)

/-- `state.clients.length > 0 || state.workers.length > 0 || state.tasks.length > 0`. -/
def hasDataState (s : DataState) : Bool :=
  s.clients.length != 0 || s.workers.length != 0 || s.tasks.length != 0

/-- The `disabled` expression of the Export-All button:
`!hasData || hasErrors || isExporting`. -/
def exportAllDisabled (s : DataState) (isExporting : Bool) : Bool :=
  !hasDataState s || hasErrorsState s || isExporting

/-- The early-return guard inside `exportData`: `if (hasErrors) return`. -/
def exportDataBlocked (s : DataState) : Bool :=
  hasErrorsState s

/-! ## Named findings and fixtures used by the claim statements -/

/-- The `no_slots` error record for worker `index`. -/
def noSlotsFinding (index : Nat) (rowId : String) : ValidationError :=
  ⟨"worker_" ++ natToString index ++ "_no_slots", .error, .workers, rowId,
    some "AvailableSlots", "AvailableSlots must be a non-empty array of numbers",
    some "Add available time slots as numbers"⟩

/-- The `overloaded` warning record for worker `index`. -/
def overloadedFinding (index : Nat) (rowId : String) : ValidationError :=
  ⟨"worker_" ++ natToString index ++ "_overloaded", .warning, .workers, rowId,
    some "MaxLoadPerPhase", "MaxLoadPerPhase exceeds available slots",
    some "Reduce MaxLoadPerPhase or add more available slots"⟩

/-- The duplicate-id error record for client `index` with id `cid`
(`rowId = cid`, as the duplicate branch requires a truthy id). -/
def dupClientFinding (index : Nat) (cid : String) : ValidationError :=
  ⟨"client_" ++ natToString index ++ "_duplicate_id", .error, .clients, cid,
    some "ClientID", "Duplicate ClientID: " ++ cid,
    some "Change to a unique identifier"⟩

/-- Spec-side phase demand: the summed `Duration` of the tasks preferring
phase `p`. -/
def phaseDemand (tasks : List Task) (p : Int) : Int :=
  ((tasks.filter (fun t => t.PreferredPhases.contains p)).map Task.Duration).sum

/-- Spec-side phase supply: the summed `MaxLoadPerPhase` of the workers
whose slot list contains phase `p`. -/
def phaseSupply (workers : List Worker) (p : Int) : Int :=
  ((workers.filter (fun w => w.AvailableSlots.contains p)).map Worker.MaxLoadPerPhase).sum

/-- `initialState` of the data context (src/unnamed/part_000). -/
def initialState : DataState :=
  ⟨[], [], [], [], [], [], ⟨25, 20, 15, 15, 10, 10, 3, 2⟩, "balanced", false⟩

/-- A populated state with one error finding, for the C1 witness. -/
def c1State : DataState :=
  { initialState with
      clients := [⟨"C1", "Acme", 3, [], "", .objVal⟩]
      validationErrors := [⟨"e1", .error, .clients, "C1", none, "m", none⟩] }

/-- The C2 query, exactly as in the spec. -/
def c2query : String := "tasks having a Duration of more than 5"

/-- The C2 query with the `of` removed: this variant does match the
duration pattern. -/
def c2queryVariant : String := "tasks having a Duration more than 5"

/-- A task with `Duration = 1` that the generic-fallback scorer returns for
the C2 query (the query word `a` occurs in the skill `alpha` and `5` does
not occur, scoring 2). -/
def c2task : Task := ⟨"T9", "Alpha", "", 1, ["alpha"], [], 1, .objVal⟩

/-- A worker with an empty slot list and `MaxLoadPerPhase = 1` (C3). -/
def c3worker : Worker := ⟨"W1", "Wendy", [], [], 1, "", 1, .objVal⟩

/-- A task fixture shared by a duplicated-record collection (C4). -/
def c4task : Task := ⟨"T1", "Task One", "G1", 1, [], [], 1, .objVal⟩

/-- The duplicate-id finding `validateTasks` emits at index 1 of
`[c4task, c4task]`. -/
def c4dupFinding : ValidationError :=
  ⟨"task_" ++ natToString 1 ++ "_duplicate_id", .error, .tasks, "T1",
    some "TaskID", "Duplicate TaskID: T1", some "Change to a unique identifier"⟩

/-- The C5 exemplar input with a hyphen-separated phase specification. -/
def c5input : String := "Restrict T5 to only phase 1-3"

/-- The C6 failing query: extracts the name criterion `alpha`. -/
def c6query : String := "tasks name containing alpha"

/-- The C6 failing record: its `TaskName` contains `alpha`
case-insensitively, so the spec expects the +5 name contribution. -/
def c6task : Task := ⟨"T1", "Alpha Build", "", 2, ["ml"], [], 1, .objVal⟩

/-- A client fixture for the C7 witness. -/
def c7client : Client := ⟨"C1", "Acme", 3, [], "", .objVal⟩

/-- A second client sharing the same id (C7). -/
def c7clientDup : Client := ⟨"C1", "Bcme", 2, [], "", .objVal⟩

/-- The C8 input, exactly as in the spec. -/
def c8input : String := "Tasks T12 and T14 should always run together"

/-- C9 witness workers: phase-2 supply `3 + 5 = 8`. -/
def c9workers : List Worker :=
  [⟨"W1", "Alice", [], [2], 3, "", 1, .objVal⟩,
   ⟨"W2", "Bob", [], [2], 5, "", 1, .objVal⟩]

/-- C9 witness tasks: phase-2 demand `5 + 7 = 12`. -/
def c9tasks : List Task :=
  [⟨"T1", "X", "", 5, [], [2], 1, .objVal⟩,
   ⟨"T2", "Y", "", 7, [], [2], 1, .objVal⟩]

/-- A state with one pending suggestion, for the C10 witness. -/
def c10state : DataState :=
  { initialState with
      ruleSuggestions := [⟨"s1", "coRun", "t", "d", 85, .coRunP ["T1", "T2"], "r"⟩] }

/-! ## Helper lemmas -/

theorem sevMatch_eq_true_iff (sev : Severity) :
    (match sev with | .error => true | .warning => false) = true ↔ sev = .error := by
  cases sev <;> simp

theorem string_ne_of_headq {s t : String} (h : s.data.head? ≠ t.data.head?) : s ≠ t :=
  fun he => h (congrArg (fun x => x.data.head?) he)

theorem validateTasksAux_all_error :
    ∀ (ts : List Task) (seen : List String) (idx : Nat) (f : ValidationError),
      f ∈ validateTasksAux seen idx ts → f.type = Severity.error := by
  intro ts
  induction ts with
  | nil => intro seen idx f hf; simp [validateTasksAux] at hf
  | cons t rest ih =>
      intro seen idx f hf
      simp only [validateTasksAux, List.mem_append] at hf
      rcases hf with hf | hf
      · simp only [taskFindings, List.mem_append, List.mem_ite_nil_right,
          List.mem_singleton] at hf
        rcases hf with
          ((((⟨-, rfl⟩ | ⟨-, rfl⟩) | ⟨-, rfl⟩) | ⟨-, rfl⟩) | ⟨-, rfl⟩) | ⟨-, rfl⟩ <;> rfl
      · exact ih (taskSeenStep seen t) (idx + 1) f hf

theorem noSlots_mem_block (i : Nat) (w : Worker) (h : w.AvailableSlots.length = 0)
    (seen : List String) :
    noSlotsFinding i (workerRowId w i) ∈ workerFindings i w seen := by
  simp only [workerFindings, List.mem_append, List.mem_ite_nil_right, List.mem_singleton]
  exact Or.inl (Or.inl (Or.inl (Or.inr ⟨h, rfl⟩)))

theorem overloaded_mem_block (i : Nat) (w : Worker)
    (h : (w.AvailableSlots.length : Int) < w.MaxLoadPerPhase) (seen : List String) :
    overloadedFinding i (workerRowId w i) ∈ workerFindings i w seen := by
  simp only [workerFindings, List.mem_append, List.mem_ite_nil_right, List.mem_singleton]
  exact Or.inl (Or.inr ⟨h, rfl⟩)

theorem mem_validateWorkersAux_of_block :
    ∀ (ws : List Worker) (seen : List String) (idx k : Nat) (hk : k < ws.length)
      (f : ValidationError),
      (∀ s : List String, f ∈ workerFindings (idx + k) (ws.get ⟨k, hk⟩) s) →
      f ∈ validateWorkersAux seen idx ws := by
  intro ws
  induction ws with
  | nil => intro seen idx k hk; exact absurd hk (Nat.not_lt_zero k)
  | cons w rest ih =>
      intro seen idx k hk f hblock
      cases k with
      | zero =>
          simp only [validateWorkersAux, List.mem_append]
          exact Or.inl (by simpa using hblock seen)
      | succ k2 =>
          simp only [validateWorkersAux, List.mem_append]
          refine Or.inr (ih (workerSeenStep seen w) (idx + 1) k2
            (Nat.lt_of_succ_lt_succ hk) f ?_)
          intro s
          have hb := hblock s
          have harith : idx + (k2 + 1) = idx + 1 + k2 := by omega
          rw [harith] at hb
          simpa using hb

theorem overloaded_eq_of_mem_block {i j : Nat} {w : Worker} {seen : List String}
    {r : String} (h : overloadedFinding j r ∈ workerFindings i w seen) :
    i = j ∧ r = workerRowId w i ∧ (w.AvailableSlots.length : Int) < w.MaxLoadPerPhase := by
  simp [workerFindings, overloadedFinding, ValidationError.mk.injEq] at h
  obtain ⟨hc, hid, hrow⟩ := h
  exact ⟨(append_natToString_inj "worker_" "_overloaded" hid).symm, hrow, hc⟩

theorem overloaded_elim_aux :
    ∀ (ws : List Worker) (seen : List String) (idx j : Nat) (r : String),
      overloadedFinding j r ∈ validateWorkersAux seen idx ws →
      ∃ k, ∃ hk : k < ws.length, idx + k = j ∧ r = workerRowId (ws.get ⟨k, hk⟩) (idx + k) ∧
        ((ws.get ⟨k, hk⟩).AvailableSlots.length : Int) < (ws.get ⟨k, hk⟩).MaxLoadPerPhase := by
  intro ws
  induction ws with
  | nil => intro seen idx j r h; simp [validateWorkersAux] at h
  | cons w rest ih =>
      intro seen idx j r h
      simp only [validateWorkersAux, List.mem_append] at h
      rcases h with h | h
      · obtain ⟨hij, hrow, hcond⟩ := overloaded_eq_of_mem_block h
        exact ⟨0, Nat.succ_pos rest.length, by omega,
          by simpa [← hij] using hrow, by simpa using hcond⟩
      · obtain ⟨k, hk, hkj, hrow, hcond⟩ := ih (workerSeenStep seen w) (idx + 1) j r h
        refine ⟨k + 1, Nat.succ_lt_succ hk, by omega, ?_, by simpa using hcond⟩
        have harith : idx + 1 + k = idx + (k + 1) := by omega
        rw [harith] at hrow
        simpa using hrow

theorem ne_of_message_headq {a b : ValidationError}
    (h : a.message.data.head? ≠ b.message.data.head?) : a ≠ b :=
  fun he => h (congrArg (fun x => x.message.data.head?) he)

theorem dupMsg_head (s : String) :
    ("Duplicate ClientID: " ++ s).data.head? = some 'D' := by
  rw [String.data_append]; rfl

theorem countP_seg_zero (p : Prop) [Decidable p] (x F : ValidationError) (hx : x ≠ F) :
    List.countP (fun f => decide (f = F)) (if p then [x] else []) = 0 := by
  split
  · simp [List.countP_cons, hx]
  · simp

theorem countP_seg (p : Prop) [Decidable p] (x F : ValidationError) :
    List.countP (fun f => decide (f = F)) (if p then [x] else [])
      = if p ∧ x = F then 1 else 0 := by
  by_cases hp : p
  · by_cases hx : x = F
    · simp [hp, hx, List.countP_cons]
    · simp [hp, hx, List.countP_cons]
  · simp [hp]

theorem msg_ne_dup (t : String) (ht : t.data.head? ≠ some 'D') (s : String) :
    t ≠ "Duplicate ClientID: " ++ s := by
  intro h
  apply ht
  rw [h, dupMsg_head]

theorem countP_dup_block (i j : Nat) (c : Client) (seen : List String) (cid : String) :
    (clientFindings i c seen).countP (fun f => decide (f = dupClientFinding j cid))
      = if i = j ∧ c.ClientID = cid ∧ c.ClientID ≠ "" ∧ seen.contains c.ClientID
        then 1 else 0 := by
  have hne1 : (⟨"client_" ++ natToString i ++ "_no_id", .error, .clients, clientRowId c i,
      some "ClientID", "ClientID is required",
      some "Add a unique identifier for this client"⟩ : ValidationError)
      ≠ dupClientFinding j cid :=
    fun h => msg_ne_dup "ClientID is required" (by decide) cid
      (congrArg ValidationError.message h)
  have hne2 : (⟨"client_" ++ natToString i ++ "_no_name", .error, .clients, clientRowId c i,
      some "ClientName", "Client name is required",
      some "Add a name for this client"⟩ : ValidationError)
      ≠ dupClientFinding j cid :=
    fun h => msg_ne_dup "Client name is required" (by decide) cid
      (congrArg ValidationError.message h)
  have hne4 : (⟨"client_" ++ natToString i ++ "_invalid_priority", .error, .clients,
      clientRowId c i, some "PriorityLevel", "PriorityLevel must be between 1 and 5",
      some "Set priority between 1 (low) and 5 (high)"⟩ : ValidationError)
      ≠ dupClientFinding j cid :=
    fun h => msg_ne_dup "PriorityLevel must be between 1 and 5" (by decide) cid
      (congrArg ValidationError.message h)
  have hne5 : (⟨"client_" ++ natToString i ++ "_invalid_json", .error, .clients,
      clientRowId c i, some "AttributesJSON", "Invalid JSON format in AttributesJSON",
      some "Fix JSON syntax or leave empty"⟩ : ValidationError)
      ≠ dupClientFinding j cid :=
    fun h => msg_ne_dup "Invalid JSON format in AttributesJSON" (by decide) cid
      (congrArg ValidationError.message h)
  simp only [clientFindings, List.countP_append]
  rw [countP_seg_zero _ _ _ hne1, countP_seg_zero _ _ _ hne2,
    countP_seg_zero _ _ _ hne4, countP_seg_zero _ _ _ hne5, countP_seg]
  have hiff : ((c.ClientID ≠ "" ∧ seen.contains c.ClientID = true) ∧
      (⟨"client_" ++ natToString i ++ "_duplicate_id", .error, .clients, clientRowId c i,
        some "ClientID", "Duplicate ClientID: " ++ c.ClientID,
        some "Change to a unique identifier"⟩ : ValidationError) = dupClientFinding j cid)
      ↔ (i = j ∧ c.ClientID = cid ∧ c.ClientID ≠ "" ∧ seen.contains c.ClientID) := by
    constructor
    · rintro ⟨⟨hid, hcont⟩, heq⟩
      simp only [dupClientFinding, ValidationError.mk.injEq] at heq
      obtain ⟨hids, -, -, -, -, hmsg, -⟩ := heq
      have hij : i = j := append_natToString_inj "client_" "_duplicate_id" hids
      have hcc : c.ClientID = cid := by
        have hdata := congrArg String.data hmsg
        simp only [String.data_append] at hdata
        exact String.ext (List.append_cancel_left hdata)
      exact ⟨hij, hcc, hid, hcont⟩
    · rintro ⟨hij, hcc, hid, hcont⟩
      subst hij
      subst hcc
      refine ⟨⟨hid, hcont⟩, ?_⟩
      simp [dupClientFinding, clientRowId, hid]
  rw [if_congr hiff rfl rfl]
  simp

theorem countP_dup_aux_zero :
    ∀ (cs : List Client) (seen : List String) (idx j : Nat), j < idx → ∀ cid : String,
      (validateClientsAux seen idx cs).countP
        (fun f => decide (f = dupClientFinding j cid)) = 0 := by
  intro cs
  induction cs with
  | nil => intro seen idx j hj cid; simp [validateClientsAux]
  | cons c rest ih =>
      intro seen idx j hj cid
      simp only [validateClientsAux, List.countP_append]
      rw [countP_dup_block, if_neg (fun hh => absurd hh.1 (by omega)),
        ih (clientSeenStep seen c) (idx + 1) j (by omega) cid]

theorem beq_str_comm (a b : String) : (a == b) = (b == a) := by
  by_cases h : a = b
  · simp [h]
  · simp [h, Ne.symm h]

theorem clientSeenStep_contains (seen : List String) (c : Client) (x : String)
    (hx : x ≠ "") :
    ((clientSeenStep seen c).contains x) = (seen.contains x || c.ClientID == x) := by
  unfold clientSeenStep
  split
  case isTrue h =>
      rw [List.contains_cons, Bool.or_comm, beq_str_comm]
  case isFalse h =>
      by_cases hc : c.ClientID = ""
      · have hfx : (c.ClientID == x) = false := by
          rw [hc]
          simp
          exact fun h2 => hx h2.symm
        simp [hfx]
      · have hcont : seen.contains c.ClientID = true := by
          by_contra hnc
          exact h ⟨hc, by simpa using hnc⟩
        by_cases hcx : c.ClientID = x
        · rw [← hcx, hcont]
          simp
        · have hfx : (c.ClientID == x) = false := by simp [hcx]
          simp [hfx]

theorem countP_dup_aux :
    ∀ (cs : List Client) (seen : List String) (idx j : Nat) (hj : j < cs.length),
      (cs.get ⟨j, hj⟩).ClientID ≠ "" →
      (validateClientsAux seen idx cs).countP
          (fun f => decide (f = dupClientFinding (idx + j) (cs.get ⟨j, hj⟩).ClientID))
        = if (seen.contains (cs.get ⟨j, hj⟩).ClientID
              || (cs.take j).any (fun c2 => c2.ClientID == (cs.get ⟨j, hj⟩).ClientID)) = true
          then 1 else 0 := by
  intro cs
  induction cs with
  | nil => intro seen idx j hj; exact absurd hj (Nat.not_lt_zero j)
  | cons c rest ih =>
      intro seen idx j hj hid
      cases j with
      | zero =>
          simp only [List.get] at hid ⊢
          simp only [validateClientsAux, List.countP_append, Nat.add_zero,
            List.take_zero, List.any_nil, Bool.or_false]
          rw [countP_dup_block, countP_dup_aux_zero rest (clientSeenStep seen c)
            (idx + 1) idx (by omega) c.ClientID]
          simp [hid]
      | succ k =>
          have hk : k < rest.length := Nat.lt_of_succ_lt_succ hj
          simp only [List.get] at hid ⊢
          simp only [validateClientsAux, List.countP_append]
          rw [countP_dup_block, if_neg (fun hh => absurd hh.1 (by omega))]
          have harith : idx + (k + 1) = idx + 1 + k := by omega
          rw [harith]
          rw [ih (clientSeenStep seen c) (idx + 1) k hk hid]
          rw [clientSeenStep_contains seen c _ hid]
          simp [Bool.or_assoc]

theorem mapFind_mapSet (m : List (Int × Int)) (k v q : Int) :
    mapFind (mapSet m k v) q = if q = k then some v else mapFind m q := by
  induction m with
  | nil =>
      by_cases h : q = k
      · simp [mapSet, mapFind, h]
      · simp [mapSet, mapFind, h, Ne.symm h]
  | cons e rest ih =>
      by_cases he : e.1 = k
      · by_cases hq : q = k
        · simp [mapSet, he, mapFind, hq]
        · have hne : e.1 ≠ q := fun hh => hq (hh.symm.trans he)
          simp [mapSet, he, mapFind, hq, Ne.symm hq, hne]
      · by_cases heq : e.1 = q
        · have hqk : q ≠ k := fun hh => he (heq.trans hh)
          simp [mapSet, he, mapFind, heq, hqk]
        · simp [mapSet, he, mapFind, heq, ih]

theorem mapKeys_mapSet_of_mem {m : List (Int × Int)} {k : Int} (h : k ∈ mapKeys m)
    (v : Int) : mapKeys (mapSet m k v) = mapKeys m := by
  induction m with
  | nil => simp [mapKeys] at h
  | cons e rest ih =>
      by_cases he : e.1 = k
      · simp [mapSet, he, mapKeys]
      · have hmem : k ∈ mapKeys rest := by
          rcases List.mem_cons.mp (show k ∈ e.1 :: mapKeys rest from h) with h1 | h1
          · exact absurd h1.symm he
          · exact h1
        show mapKeys (mapSet (e :: rest) k v) = mapKeys (e :: rest)
        simp only [mapSet, if_neg he]
        show e.1 :: mapKeys (mapSet rest k v) = e.1 :: mapKeys rest
        rw [ih hmem]

theorem mapKeys_mapSet_of_not_mem {m : List (Int × Int)} {k : Int} (h : k ∉ mapKeys m)
    (v : Int) : mapKeys (mapSet m k v) = mapKeys m ++ [k] := by
  induction m with
  | nil => simp [mapSet, mapKeys]
  | cons e rest ih =>
      have he : e.1 ≠ k := by
        intro hh
        exact h (show k ∈ e.1 :: mapKeys rest from by
          rw [hh]; exact List.mem_cons_self k (mapKeys rest))
      have hrest : k ∉ mapKeys rest := by
        intro hh
        exact h (show k ∈ e.1 :: mapKeys rest from List.mem_cons_of_mem e.1 hh)
      show mapKeys (mapSet (e :: rest) k v) = mapKeys (e :: rest) ++ [k]
      simp only [mapSet, if_neg he]
      show e.1 :: mapKeys (mapSet rest k v) = (e.1 :: mapKeys rest) ++ [k]
      rw [ih hrest]
      rfl

theorem mem_mapKeys_mapSet {m : List (Int × Int)} {k v q : Int} :
    q ∈ mapKeys (mapSet m k v) ↔ q ∈ mapKeys m ∨ q = k := by
  by_cases h : k ∈ mapKeys m
  · rw [mapKeys_mapSet_of_mem h v]
    constructor
    · exact Or.inl
    · rintro (h1 | h1)
      · exact h1
      · exact h1 ▸ h
  · rw [mapKeys_mapSet_of_not_mem h v]
    simp [List.mem_append]

theorem nodup_mapKeys_mapSet {m : List (Int × Int)} {k v : Int}
    (h : (mapKeys m).Nodup) : (mapKeys (mapSet m k v)).Nodup := by
  by_cases hk : k ∈ mapKeys m
  · rwa [mapKeys_mapSet_of_mem hk v]
  · rw [mapKeys_mapSet_of_not_mem hk v, List.nodup_append]
    refine ⟨h, List.nodup_singleton k, ?_⟩
    intro a ha hb
    simp only [List.mem_singleton] at hb
    exact hk (hb ▸ ha)

theorem mapFind_eq_of_mem :
    ∀ (m : List (Int × Int)) (k v : Int), (k, v) ∈ m → (mapKeys m).Nodup →
      mapFind m k = some v := by
  intro m
  induction m with
  | nil => intro k v h; simp at h
  | cons e rest ih =>
      intro k v h hnd
      rcases List.mem_cons.mp h with h1 | h1
      · rw [← h1]
        simp [mapFind]
      · have hk : k ∈ mapKeys rest := List.mem_map.mpr ⟨(k, v), h1, rfl⟩
        have hnd2 := List.nodup_cons.mp (show (e.1 :: mapKeys rest).Nodup from hnd)
        have he : e.1 ≠ k := fun hh => hnd2.1 (hh ▸ hk)
        simp only [mapFind, if_neg he]
        exact ih k v h1 hnd2.2

theorem innerFold_val (add : Int) :
    ∀ (phases : List Int) (m : List (Int × Int)) (p : Int),
      (mapFind (phases.foldl
          (fun m2 ph => mapSet m2 ph ((mapFind m2 ph).getD 0 + add)) m) p).getD 0
        = (mapFind m p).getD 0 + (phases.count p : Int) * add := by
  intro phases
  induction phases with
  | nil => intro m p; simp
  | cons ph rest ih =>
      intro m p
      simp only [List.foldl_cons]
      rw [ih, mapFind_mapSet]
      by_cases hp : p = ph
      · subst hp
        rw [if_pos rfl]
        simp only [Option.getD_some, List.count_cons, beq_self_eq_true, if_true]
        push_cast
        ring
      · rw [if_neg hp]
        have hbeq : (ph == p) = false := by
          simp only [beq_eq_false_iff_ne, ne_eq]
          exact fun hh => hp hh.symm
        simp [List.count_cons, hbeq]

theorem innerFold_keys (add : Int) :
    ∀ (phases : List Int) (m : List (Int × Int)) (q : Int),
      q ∈ mapKeys (phases.foldl
          (fun m2 ph => mapSet m2 ph ((mapFind m2 ph).getD 0 + add)) m)
        ↔ q ∈ mapKeys m ∨ q ∈ phases := by
  intro phases
  induction phases with
  | nil => intro m q; simp
  | cons ph rest ih =>
      intro m q
      simp only [List.foldl_cons]
      rw [ih]
      rw [mem_mapKeys_mapSet]
      simp [List.mem_cons]
      tauto

theorem innerFold_nodup (add : Int) :
    ∀ (phases : List Int) (m : List (Int × Int)), (mapKeys m).Nodup →
      (mapKeys (phases.foldl
          (fun m2 ph => mapSet m2 ph ((mapFind m2 ph).getD 0 + add)) m)).Nodup := by
  intro phases
  induction phases with
  | nil => intro m h; simpa using h
  | cons ph rest ih =>
      intro m h
      simp only [List.foldl_cons]
      exact ih _ (nodup_mapKeys_mapSet h)

theorem demandMap_val (tasks : List Task) (p : Int) :
    (mapFind (phaseDemandMap tasks) p).getD 0
      = (tasks.map (fun t => (t.PreferredPhases.count p : Int) * t.Duration)).sum := by
  suffices h : ∀ (ts : List Task) (m : List (Int × Int)),
      (mapFind (ts.foldl (fun m2 t => t.PreferredPhases.foldl
          (fun m3 phase => mapSet m3 phase ((mapFind m3 phase).getD 0 + t.Duration)) m2)
        m) p).getD 0
        = (mapFind m p).getD 0
          + (ts.map (fun t => (t.PreferredPhases.count p : Int) * t.Duration)).sum by
    have h2 := h tasks []
    simpa [phaseDemandMap, mapFind] using h2
  intro ts
  induction ts with
  | nil => intro m; simp
  | cons t rest ih =>
      intro m
      simp only [List.foldl_cons]
      rw [ih, innerFold_val]
      simp only [List.map_cons, List.sum_cons]
      ring

theorem supplyMap_val (workers : List Worker) (p : Int) :
    (mapFind (phaseSlotMap workers) p).getD 0
      = (workers.map (fun w => (w.AvailableSlots.count p : Int) * w.MaxLoadPerPhase)).sum := by
  suffices h : ∀ (ws : List Worker) (m : List (Int × Int)),
      (mapFind (ws.foldl (fun m2 w => w.AvailableSlots.foldl
          (fun m3 slot => mapSet m3 slot ((mapFind m3 slot).getD 0 + w.MaxLoadPerPhase)) m2)
        m) p).getD 0
        = (mapFind m p).getD 0
          + (ws.map (fun w => (w.AvailableSlots.count p : Int) * w.MaxLoadPerPhase)).sum by
    have h2 := h workers []
    simpa [phaseSlotMap, mapFind] using h2
  intro ws
  induction ws with
  | nil => intro m; simp
  | cons w rest ih =>
      intro m
      simp only [List.foldl_cons]
      rw [ih, innerFold_val]
      simp only [List.map_cons, List.sum_cons]
      ring

theorem demandMap_keys (tasks : List Task) (p : Int) :
    p ∈ mapKeys (phaseDemandMap tasks) ↔ ∃ t ∈ tasks, p ∈ t.PreferredPhases := by
  suffices h : ∀ (ts : List Task) (m : List (Int × Int)),
      p ∈ mapKeys (ts.foldl (fun m2 t => t.PreferredPhases.foldl
          (fun m3 phase => mapSet m3 phase ((mapFind m3 phase).getD 0 + t.Duration)) m2) m)
        ↔ p ∈ mapKeys m ∨ ∃ t ∈ ts, p ∈ t.PreferredPhases by
    have h2 := h tasks []
    simpa [phaseDemandMap, mapKeys] using h2
  intro ts
  induction ts with
  | nil => intro m; simp
  | cons t rest ih =>
      intro m
      simp only [List.foldl_cons]
      rw [ih, innerFold_keys]
      constructor
      · rintro ((h1 | h1) | ⟨t2, ht2, hp2⟩)
        · exact Or.inl h1
        · exact Or.inr ⟨t, List.mem_cons_self t rest, h1⟩
        · exact Or.inr ⟨t2, List.mem_cons_of_mem t ht2, hp2⟩
      · rintro (h1 | ⟨t2, ht2, hp2⟩)
        · exact Or.inl (Or.inl h1)
        · rcases List.mem_cons.mp ht2 with h3 | h3
          · exact Or.inl (Or.inr (h3 ▸ hp2))
          · exact Or.inr ⟨t2, h3, hp2⟩

theorem demandMap_nodup (tasks : List Task) : (mapKeys (phaseDemandMap tasks)).Nodup := by
  suffices h : ∀ (ts : List Task) (m : List (Int × Int)), (mapKeys m).Nodup →
      (mapKeys (ts.foldl (fun m2 t => t.PreferredPhases.foldl
          (fun m3 phase => mapSet m3 phase ((mapFind m3 phase).getD 0 + t.Duration)) m2)
        m)).Nodup by
    exact h tasks [] (by simp [mapKeys])
  intro ts
  induction ts with
  | nil => intro m hm; simpa using hm
  | cons t rest ih =>
      intro m hm
      simp only [List.foldl_cons]
      exact ih _ (innerFold_nodup t.Duration t.PreferredPhases m hm)

theorem count_sum_eq_filter_sum_tasks :
    ∀ (tasks : List Task) (p : Int), (∀ t ∈ tasks, t.PreferredPhases.Nodup) →
      (tasks.map (fun t => (t.PreferredPhases.count p : Int) * t.Duration)).sum
        = phaseDemand tasks p := by
  intro tasks
  induction tasks with
  | nil => intro p hT; simp [phaseDemand]
  | cons t rest ih =>
      intro p hT
      have ht := hT t (List.mem_cons_self t rest)
      have hrest : ∀ t2 ∈ rest, t2.PreferredPhases.Nodup :=
        fun t2 h2 => hT t2 (List.mem_cons_of_mem t h2)
      simp only [List.map_cons, List.sum_cons]
      rw [ih p hrest]
      by_cases hmem : p ∈ t.PreferredPhases
      · have hcount : t.PreferredPhases.count p = 1 := List.count_eq_one_of_mem ht hmem
        have hcont : (t.PreferredPhases.contains p) = true := by
          simpa using hmem
        simp [phaseDemand, List.filter_cons, hcont, hcount, hmem]
        try push_cast
        try ring
      · have hcount : t.PreferredPhases.count p = 0 := by
          simpa [List.count_eq_zero] using hmem
        have hcont : (t.PreferredPhases.contains p) = false := by
          simpa using hmem
        simp [phaseDemand, List.filter_cons, hcont, hcount, hmem]
        try push_cast
        try ring

theorem count_sum_eq_filter_sum_workers :
    ∀ (workers : List Worker) (p : Int), (∀ w ∈ workers, w.AvailableSlots.Nodup) →
      (workers.map (fun w => (w.AvailableSlots.count p : Int) * w.MaxLoadPerPhase)).sum
        = phaseSupply workers p := by
  intro workers
  induction workers with
  | nil => intro p hW; simp [phaseSupply]
  | cons w rest ih =>
      intro p hW
      have hw := hW w (List.mem_cons_self w rest)
      have hrest : ∀ w2 ∈ rest, w2.AvailableSlots.Nodup :=
        fun w2 h2 => hW w2 (List.mem_cons_of_mem w h2)
      simp only [List.map_cons, List.sum_cons]
      rw [ih p hrest]
      by_cases hmem : p ∈ w.AvailableSlots
      · have hcount : w.AvailableSlots.count p = 1 := List.count_eq_one_of_mem hw hmem
        have hcont : (w.AvailableSlots.contains p) = true := by
          simpa using hmem
        simp [phaseSupply, List.filter_cons, hcont, hcount, hmem]
        try push_cast
        try ring
      · have hcount : w.AvailableSlots.count p = 0 := by
          simpa [List.count_eq_zero] using hmem
        have hcont : (w.AvailableSlots.contains p) = false := by
          simpa using hmem
        simp [phaseSupply, List.filter_cons, hcont, hcount, hmem]
        try push_cast
        try ring

theorem filter_cons_false {α : Type} (p : α → Bool) (a : α) (l : List α)
    (h : p a = false) : (a :: l).filter p = l.filter p := by
  simp [List.filter_cons, h]

theorem filter_cons_true {α : Type} (p : α → Bool) (a : α) (l : List α)
    (h : p a = true) : (a :: l).filter p = a :: l.filter p := by
  simp [List.filter_cons, h]

theorem filter_oversat_nil (slotMap : List (Int × Int)) (p : Int) :
    ∀ entries : List (Int × Int), p ∉ mapKeys entries →
      ((entries.filterMap (fun e =>
          if (mapFind slotMap e.1).getD 0 < e.2 then
            some (oversatFinding e.1 e.2 ((mapFind slotMap e.1).getD 0)) else none)).filter
        (fun f => f.id == oversatId p)) = [] := by
  intro entries
  induction entries with
  | nil => intro _; simp
  | cons e rest ih =>
      intro hp
      have hne : e.1 ≠ p := fun hh =>
        hp (show p ∈ e.1 :: mapKeys rest from by
          rw [hh]; exact List.mem_cons_self p (mapKeys rest))
      have hrest : p ∉ mapKeys rest := fun hh =>
        hp (show p ∈ e.1 :: mapKeys rest from List.mem_cons_of_mem e.1 hh)
      by_cases hcond : (mapFind slotMap e.1).getD 0 < e.2
      · have hbeq : ((oversatFinding e.1 e.2 ((mapFind slotMap e.1).getD 0)).id
            == oversatId p) = false := by
          simp only [oversatFinding, oversatId, beq_eq_false_iff_ne, ne_eq]
          intro hx
          exact hne (append_intToString_inj "phase_" "_oversaturated" hx)
        simp only [List.filterMap_cons, if_pos hcond]
        rw [filter_cons_false (fun f => f.id == oversatId p)
          (oversatFinding e.1 e.2 ((mapFind slotMap e.1).getD 0)) _ hbeq]
        exact ih hrest
      · simp only [List.filterMap_cons, if_neg hcond]
        exact ih hrest

theorem filter_oversat_main (slotMap : List (Int × Int)) (p d : Int)
    (hover : (mapFind slotMap p).getD 0 < d) :
    ∀ entries : List (Int × Int), (mapKeys entries).Nodup → (p, d) ∈ entries →
      ((entries.filterMap (fun e =>
          if (mapFind slotMap e.1).getD 0 < e.2 then
            some (oversatFinding e.1 e.2 ((mapFind slotMap e.1).getD 0)) else none)).filter
        (fun f => f.id == oversatId p))
        = [oversatFinding p d ((mapFind slotMap p).getD 0)] := by
  intro entries
  induction entries with
  | nil => intro _ h; simp at h
  | cons e rest ih =>
      intro hnd hmem
      have hnd2 := List.nodup_cons.mp (show (e.1 :: mapKeys rest).Nodup from hnd)
      rcases List.mem_cons.mp hmem with h1 | h1
      · obtain rfl := h1.symm
        simp only [List.filterMap_cons, if_pos hover]
        rw [filter_cons_true (fun f => f.id == oversatId p)
          (oversatFinding p d ((mapFind slotMap p).getD 0)) _
          (by simp [oversatFinding, oversatId])]
        rw [filter_oversat_nil slotMap p rest hnd2.1]
      · have hpk : p ∈ mapKeys rest := List.mem_map.mpr ⟨(p, d), h1, rfl⟩
        have hne : e.1 ≠ p := fun hh => hnd2.1 (hh ▸ hpk)
        by_cases hcond : (mapFind slotMap e.1).getD 0 < e.2
        · have hbeq : ((oversatFinding e.1 e.2 ((mapFind slotMap e.1).getD 0)).id
              == oversatId p) = false := by
            simp only [oversatFinding, oversatId, beq_eq_false_iff_ne, ne_eq]
            intro hx
            exact hne (append_intToString_inj "phase_" "_oversaturated" hx)
          simp only [List.filterMap_cons, if_pos hcond]
          rw [filter_cons_false (fun f => f.id == oversatId p)
            (oversatFinding e.1 e.2 ((mapFind slotMap e.1).getD 0)) _ hbeq]
          exact ih hnd2.2 h1
        · simp only [List.filterMap_cons, if_neg hcond]
          exact ih hnd2.2 h1

theorem takeWhile_all {α : Type} (p : α → Bool) :
    ∀ l : List α, (∀ c ∈ l, p c = true) → l.takeWhile p = l := by
  intro l
  induction l with
  | nil => intro _; rfl
  | cons c rest ih =>
      intro h
      simp only [List.takeWhile_cons, h c (List.mem_cons_self c rest), if_true]
      rw [ih (fun x hx => h x (List.mem_cons_of_mem c hx))]

theorem dropWhile_all {α : Type} (p : α → Bool) :
    ∀ l : List α, (∀ c ∈ l, p c = true) → l.dropWhile p = [] := by
  intro l
  induction l with
  | nil => intro _; rfl
  | cons c rest ih =>
      intro h
      simp only [List.dropWhile_cons, h c (List.mem_cons_self c rest), if_true]
      exact ih (fun x hx => h x (List.mem_cons_of_mem c hx))

theorem dropWhile_none {α : Type} (p : α → Bool) :
    ∀ l : List α, (∀ c ∈ l, p c = false) → l.dropWhile p = l := by
  intro l
  induction l with
  | nil => intro _; rfl
  | cons c rest _ =>
      intro h
      simp only [List.dropWhile_cons, h c (List.mem_cons_self c rest)]
      simp

theorem digitChar_props (d : Nat) :
    (digitChar d).isDigit = true ∧ isWsChar (digitChar d) = false
      ∧ (decide (digitChar d = '-') || decide (digitChar d = ',')) = false := by
  unfold digitChar
  split <;> decide

theorem natToChars_digit_props (n : Nat) :
    ∀ c ∈ natToChars n,
      c.isDigit = true ∧ isWsChar c = false
        ∧ (decide (c = '-') || decide (c = ',')) = false := by
  intro c hc
  obtain ⟨d, rfl⟩ := natToCharsFuel_all_digits (n + 1) n c hc
  exact digitChar_props d

theorem splitOnPred_nosep (sep : Char → Bool) :
    ∀ l : List Char, (∀ c ∈ l, sep c = false) → splitOnPred sep l = [l] := by
  intro l
  induction l with
  | nil => intro _; rfl
  | cons c rest ih =>
      intro h
      have hc : sep c = false := h c (List.mem_cons_self c rest)
      have hrest := fun x hx => h x (List.mem_cons_of_mem c hx)
      simp [splitOnPred, hc, ih hrest]

theorem splitOnPred_sep_append (sep : Char → Bool) (x : Char) (hx : sep x = true) :
    ∀ (A B : List Char), (∀ c ∈ A, sep c = false) →
      splitOnPred sep (A ++ x :: B) = A :: splitOnPred sep B := by
  intro A
  induction A with
  | nil => intro B _; simp [splitOnPred, hx]
  | cons c A2 ih =>
      intro B hA
      have hc : sep c = false := hA c (List.mem_cons_self c A2)
      have hA2 := fun y hy => hA y (List.mem_cons_of_mem c hy)
      simp only [List.cons_append, splitOnPred, hc, List.append_eq]
      rw [ih B hA2]
      simp

theorem trimJS_mk_digits (n : Nat) :
    trimJS (String.mk (natToChars n)) = String.mk (natToChars n) := by
  unfold trimJS
  rw [show (String.mk (natToChars n)).data = natToChars n from rfl]
  rw [dropWhile_none isWsChar (natToChars n)
    (fun c hc => (natToChars_digit_props n c hc).2.1)]
  rw [dropWhile_none isWsChar (natToChars n).reverse
    (fun c hc => (natToChars_digit_props n c (List.mem_reverse.mp hc)).2.1)]
  rw [List.reverse_reverse]

theorem parseIntJS_mk_digits (n : Nat) :
    parseIntJS (String.mk (natToChars n)) = some (n : Int) := by
  unfold parseIntJS
  rw [show (String.mk (natToChars n)).data = natToChars n from rfl]
  rcases hcons : natToChars n with _ | ⟨c, cs⟩
  · exact absurd hcons (natToChars_ne_nil n)
  · have hmemc : c ∈ natToChars n := by rw [hcons]; exact List.mem_cons_self c cs
    have hdigc : c.isDigit = true := (natToChars_digit_props n c hmemc).1
    have hall : ∀ x ∈ c :: cs, x.isDigit = true := fun x hx =>
      (natToChars_digit_props n x (by rw [hcons]; exact hx)).1
    split
    next rest heq =>
        exfalso
        injection heq with h1 h2
        rw [h1] at hdigc
        exact absurd hdigc (by decide)
    next rest heq =>
        exfalso
        injection heq with h1 h2
        rw [h1] at hdigc
        exact absurd hdigc (by decide)
    next =>
        unfold matchDigits
        rw [takeWhile_all Char.isDigit (c :: cs) hall]
        simp only [List.isEmpty_cons, Bool.false_eq_true, if_false]
        rw [← hcons]
        simp [decDigits_natToChars]

theorem parsePhaseList_pair (a b : Nat) :
    parsePhaseList (natToString a ++ "-" ++ natToString b) = [(a : Int), (b : Int)] := by
  unfold parsePhaseList
  have hdata : (natToString a ++ "-" ++ natToString b).data
      = natToChars a ++ '-' :: natToChars b := by
    simp [String.data_append, natToString]
  rw [hdata]
  rw [splitOnPred_sep_append _ '-' (by decide) (natToChars a) (natToChars b)
    (fun c hc => (natToChars_digit_props a c hc).2.2)]
  rw [splitOnPred_nosep _ (natToChars b)
    (fun c hc => (natToChars_digit_props b c hc).2.2)]
  simp only [List.filterMap_cons, trimJS_mk_digits, parseIntJS_mk_digits]
  rfl

/-! ## Claim theorems -/

/-- C1 (counterexample): in the initial state there is no error finding,
yet the Export-All button is disabled (no data is loaded), so "disabled
exactly when some finding has severity error" fails. -/
theorem claim_C1_counterexample :
    ¬ (exportAllDisabled initialState false = true ↔
        ∃ e ∈ initialState.validationErrors, e.type = Severity.error) := by
  decide

/-- C1 (amended): the export button is disabled iff an error finding
exists OR no data is loaded OR an export is already in progress; under
data present and no export in progress, disabled is equivalent to the
existence of an error-severity finding. -/
theorem claim_C1_amended (s : DataState) (isExporting : Bool)
    (hdata : hasDataState s = true) (hexp : isExporting = false) :
    exportAllDisabled s isExporting = true ↔
      ∃ e ∈ s.validationErrors, e.type = Severity.error := by
  subst hexp
  unfold exportAllDisabled
  rw [hdata]
  simp only [Bool.not_true, Bool.false_or, Bool.or_false]
  unfold hasErrorsState
  rw [List.any_eq_true]
  constructor
  · rintro ⟨e, he, hmatch⟩
    exact ⟨e, he, (sevMatch_eq_true_iff e.type).mp hmatch⟩
  · rintro ⟨e, he, htype⟩
    exact ⟨e, he, (sevMatch_eq_true_iff e.type).mpr htype⟩

/-- C1 (witness): the amended equivalence applied to a populated state
with one error finding. -/
theorem claim_C1_witness :
    hasDataState c1State = true ∧
      (exportAllDisabled c1State false = true ↔
        ∃ e ∈ c1State.validationErrors, e.type = Severity.error) :=
  ⟨rfl, claim_C1_amended c1State false rfl rfl⟩

/-- C2 (counterexample): on the exact query
`"tasks having a Duration of more than 5"` the extracted duration
criterion is NOT `{operator: '>', value: 5}` (the intervening `of` defeats
`/duration\s*(...)\s*(\d+)/`), and the result list contains the task `T9`
whose `Duration` is `1`, not greater than `5` (matched by the generic
token-overlap fallback). -/
theorem claim_C2_counterexample :
    (extractSearchCriteria (toLowerJS c2query) (splitWsJS (toLowerJS c2query))).duration
        ≠ some (">", 5)
    ∧ searchWithNaturalLanguage c2query [] [] [c2task]
        = [⟨.tasks, "T9", "", 2⟩]
    ∧ c2task.Duration = 1 := by
  have hnone : (extractSearchCriteria (toLowerJS c2query)
      (splitWsJS (toLowerJS c2query))).duration = none := rfl
  exact ⟨by rw [hnone]; simp, rfl, rfl⟩

/-- C2 (amended): for the exact query no criterion at all is extracted
(the duration criterion included), so scoring falls back to generic token
overlap and the result list may contain tasks with `Duration ≤ 5`; the
variant query without `of` does extract `{operator: '>', value: 5}`. -/
theorem claim_C2_amended :
    extractSearchCriteria (toLowerJS c2query) (splitWsJS (toLowerJS c2query))
        = ⟨none, none, none, none, none, none⟩
    ∧ (extractSearchCriteria (toLowerJS c2queryVariant)
          (splitWsJS (toLowerJS c2queryVariant))).duration = some (">", 5)
    ∧ searchWithNaturalLanguage c2query [] [] [c2task]
        = [⟨.tasks, "T9", "", 2⟩]
    ∧ c2task.Duration ≤ 5 :=
  ⟨rfl, rfl, rfl, by decide⟩

/-- C3 (counterexample): for a worker with an empty slot list and
`MaxLoadPerPhase = 1`, the validator emits BOTH the `no_slots` error AND
the `overloaded` warning — the two checks are independent, so the claim
that the warning is not produced fails. -/
theorem claim_C3_counterexample :
    noSlotsFinding 0 "W1" ∈ validateWorkers [c3worker]
    ∧ overloadedFinding 0 "W1" ∈ validateWorkers [c3worker] := by
  decide

/-- C3 (amended): for a worker record with an empty `AvailableSlots`, the
`no_slots` error is always produced, and the `overloaded` warning is ALSO
produced exactly when `MaxLoadPerPhase ≥ 1` (since `0 < MaxLoadPerPhase`
is then the overload comparison `slots.length < MaxLoadPerPhase`). -/
theorem claim_C3_amended (workers : List Worker) (j : Nat) (hj : j < workers.length)
    (hslots : (workers.get ⟨j, hj⟩).AvailableSlots = []) :
    noSlotsFinding j (workerRowId (workers.get ⟨j, hj⟩) j) ∈ validateWorkers workers
    ∧ (overloadedFinding j (workerRowId (workers.get ⟨j, hj⟩) j) ∈ validateWorkers workers
        ↔ 0 < (workers.get ⟨j, hj⟩).MaxLoadPerPhase) := by
  have h0 : (workers.get ⟨j, hj⟩).AvailableSlots.length = 0 := by rw [hslots]; rfl
  constructor
  · apply mem_validateWorkersAux_of_block workers [] 0 j hj
    intro s
    have hb := noSlots_mem_block (0 + j) (workers.get ⟨j, hj⟩) h0 s
    simpa using hb
  · constructor
    · intro hmem
      obtain ⟨k, hk, hkj, -, hcond⟩ := overloaded_elim_aux workers [] 0 j _ hmem
      have hkeq : k = j := by omega
      subst hkeq
      rw [hslots] at hcond
      simpa using hcond
    · intro hpos
      apply mem_validateWorkersAux_of_block workers [] 0 j hj
      intro s
      have hcond : ((workers.get ⟨j, hj⟩).AvailableSlots.length : Int)
          < (workers.get ⟨j, hj⟩).MaxLoadPerPhase := by
        rw [h0]
        exact_mod_cast hpos
      have hb := overloaded_mem_block (0 + j) (workers.get ⟨j, hj⟩) hcond s
      simpa using hb

/-- C3 (witness): the amended statement applied to a concrete worker with
no slots and `MaxLoadPerPhase = 1`. -/
theorem claim_C3_witness :
    noSlotsFinding 0 (workerRowId c3worker 0) ∈ validateWorkers [c3worker]
    ∧ (overloadedFinding 0 (workerRowId c3worker 0) ∈ validateWorkers [c3worker]
        ↔ 0 < c3worker.MaxLoadPerPhase) :=
  claim_C3_amended [c3worker] 0 (by decide) rfl

/-- C4 (counterexample): two fully identical tasks (sharing every field,
hence any conceivable group tag) produce no circular-dependency warning:
the task validator emits only the duplicate-id error, no warning at all
and no message mentioning `circular`. -/
theorem claim_C4_counterexample :
    (∀ f ∈ validateTasks [c4task, c4task], f.type = Severity.error)
    ∧ ∀ f ∈ validateTasks [c4task, c4task], containsSub f.message "circular" = false := by
  decide

/-- C4 (amended): the structural task validation has no co-execution-group
check at all — the `Task` model has no group field and `validateTasks`
emits only error findings, never any warning (circular-dependency or
otherwise). -/
theorem claim_C4_amended (tasks : List Task) :
    ∀ f ∈ validateTasks tasks, f.type = Severity.error :=
  fun f hf => validateTasksAux_all_error tasks [] 0 f hf

/-- C4 (witness): the amended statement applied to the duplicated-task
collection at its duplicate-id finding. -/
theorem claim_C4_witness :
    c4dupFinding ∈ validateTasks [c4task, c4task]
    ∧ c4dupFinding.type = Severity.error :=
  ⟨by decide, claim_C4_amended [c4task, c4task] c4dupFinding (by decide)⟩

/-- C5 (counterexample): for `"Restrict T5 to only phase 1-3"` no emitted
suggestion carries the expanded range `[1, 2, 3]` — the hyphen is treated
as a separator, not an inclusive range. -/
theorem claim_C5_counterexample :
    ¬ ∃ sug ∈ generateRuleSuggestions 0 c5input,
        sug.parameters = RuleParams.phaseWindowP "T5" [1, 2, 3] := by
  decide

/-- C5 (amended): for every input text containing `phase` and `only` or
`restrict` (case-insensitively), a work-unit id token, and a phase
specification, the extractor emits a phase-window suggestion with
confidence 82 restricting that unit, whose allowed-phases parameter is the
parsed separator-split list — and for a hyphen-separated specification
`a-b` that list is the pair of endpoints `[a, b]`, NOT the expanded
inclusive integer range. -/
theorem claim_C5_amended (now : Nat) (input tok cap : String)
    (hphase : containsSub (toLowerJS input) "phase" = true)
    (hcue : (containsSub (toLowerJS input) "only"
        || containsSub (toLowerJS input) "restrict") = true)
    (htok : firstTaskToken input = some tok)
    (hspec : phaseSpecCapture input = some cap) :
    ((⟨"suggestion_" ++ natToString now ++ "_3", "phaseWindow", "Phase Window Rule",
      "Restrict " ++ tok ++ " to phases "
        ++ String.intercalate ", " ((parsePhaseList cap).map intToString),
      82, .phaseWindowP (toUpperJS tok) (parsePhaseList cap),
      "Detected phase restriction pattern with specific task and phases"⟩ : RuleSuggestion)
      ∈ generateRuleSuggestions now input)
    ∧ ∀ a b : Nat, parsePhaseList (natToString a ++ "-" ++ natToString b)
        = [(a : Int), (b : Int)] := by
  constructor
  · simp [generateRuleSuggestions, hphase, hcue, htok, hspec]
  · intro a b
    exact parsePhaseList_pair a b

/-- C5 (witness): the amended statement applied to the exemplar
`"Restrict T5 to only phase 1-3"`: the emitted suggestion carries
`parsePhaseList "1-3"`, which evaluates to `[1, 3]`. -/
theorem claim_C5_witness :
    ((⟨"suggestion_" ++ natToString 7 ++ "_3", "phaseWindow", "Phase Window Rule",
      "Restrict T5 to phases "
        ++ String.intercalate ", " ((parsePhaseList "1-3").map intToString),
      82, .phaseWindowP (toUpperJS "T5") (parsePhaseList "1-3"),
      "Detected phase restriction pattern with specific task and phases"⟩ : RuleSuggestion)
      ∈ generateRuleSuggestions 7 c5input)
    ∧ parsePhaseList "1-3" = [1, 3] :=
  ⟨(claim_C5_amended 7 c5input "T5" "1-3" rfl rfl rfl rfl).1, by decide⟩

/-- C6 (code bug): the query extracts the name criterion `alpha` and the
record display name `Alpha Build` contains it case-insensitively, yet the
scorer reads the nonexistent `task.Name` property (the model has
`TaskName`), so the +5 contribution is never added: the record scores 0
and is excluded from the results entirely. -/
theorem claim_C6_name_score_dead :
    (extractSearchCriteria (toLowerJS c6query) (splitWsJS (toLowerJS c6query))).name
        = some "alpha"
    ∧ containsSub (toLowerJS c6task.TaskName) "alpha" = true
    ∧ taskNameProp c6task = none
    ∧ scoreTaskMatch c6task
        (extractSearchCriteria (toLowerJS c6query) (splitWsJS (toLowerJS c6query)))
        (toLowerJS c6query) = 0
    ∧ searchWithNaturalLanguage c6query [] [] [c6task] = [] :=
  ⟨rfl, rfl, rfl, rfl, rfl⟩

/-- C7: first-occurrence-wins duplicate detection: for a client at position
`j` with a nonempty id, the validator output contains exactly one
duplicate-id finding for that record — with the record's id as its row
scope — when some earlier record shares the id, and none otherwise (so the
first record with a given id is exempt). -/
theorem claim_C7_first_occurrence (clients : List Client) (j : Nat)
    (hj : j < clients.length) (hid : (clients.get ⟨j, hj⟩).ClientID ≠ "") :
    (validateClients clients).countP
        (fun f => decide (f = dupClientFinding j (clients.get ⟨j, hj⟩).ClientID))
      = if ((clients.take j).any
            (fun c2 => c2.ClientID == (clients.get ⟨j, hj⟩).ClientID)) = true
        then 1 else 0 := by
  have h := countP_dup_aux clients [] 0 j hj hid
  simpa using h

/-- C7 (witness): two clients sharing id `C1` — the later record receives
exactly one duplicate-id finding. -/
theorem claim_C7_witness :
    (validateClients [c7client, c7clientDup]).countP
        (fun f => decide (f = dupClientFinding 1 "C1")) = 1 := by
  have h := claim_C7_first_occurrence [c7client, c7clientDup] 1 (by decide) (by decide)
  exact h.trans (by decide)

/-- C8: for `"Tasks T12 and T14 should always run together"` the extractor
returns exactly one suggestion: a co-run with `tasks = ["T12", "T14"]` and
confidence 85 (for every `Date.now()` value). -/
theorem claim_C8_corun_exact (now : Nat) :
    generateRuleSuggestions now c8input
      = [⟨"suggestion_" ++ natToString now ++ "_1", "coRun", "Co-Run Tasks Rule",
          "Tasks T12, T14 should run together", 85, .coRunP ["T12", "T14"],
          "Detected task IDs and co-execution keywords in input"⟩] :=
  rfl

/-- C9: for every demanded phase whose demand total (sum of `Duration`
over tasks preferring it) exceeds its supply total (sum of
`MaxLoadPerPhase` over workers offering it), the advanced-constraints pass
emits exactly one oversaturation finding for that phase: the filtered
output is precisely the single warning naming the phase, demand and
supply, attributed to the synthetic `system` row. (Slot and phase lists
are assumed duplicate-free, matching the claim's per-record sums.) -/
theorem claim_C9_oversaturation (clients : List Client) (workers : List Worker)
    (tasks : List Task) (p : Int)
    (hW : ∀ w ∈ workers, w.AvailableSlots.Nodup)
    (hT : ∀ t ∈ tasks, t.PreferredPhases.Nodup)
    (hdemanded : ∃ t ∈ tasks, p ∈ t.PreferredPhases)
    (hover : phaseSupply workers p < phaseDemand tasks p) :
    (validateAdvancedConstraints clients workers tasks).filter
        (fun f => f.id == oversatId p)
      = [oversatFinding p (phaseDemand tasks p) (phaseSupply workers p)] := by
  have hsup : (mapFind (phaseSlotMap workers) p).getD 0 = phaseSupply workers p :=
    (supplyMap_val workers p).trans (count_sum_eq_filter_sum_workers workers p hW)
  have hdem : (mapFind (phaseDemandMap tasks) p).getD 0 = phaseDemand tasks p :=
    (demandMap_val tasks p).trans (count_sum_eq_filter_sum_tasks tasks p hT)
  have hnd := demandMap_nodup tasks
  have hkeys : p ∈ mapKeys (phaseDemandMap tasks) := (demandMap_keys tasks p).mpr hdemanded
  obtain ⟨e, hmem, hfst⟩ := List.mem_map.mp hkeys
  have hmem2 : (p, e.2) ∈ phaseDemandMap tasks := by
    rw [← hfst]
    simpa using hmem
  have hfind : mapFind (phaseDemandMap tasks) p = some e.2 :=
    mapFind_eq_of_mem (phaseDemandMap tasks) p e.2 hmem2 hnd
  have he2 : e.2 = phaseDemand tasks p := by
    rw [← hdem, hfind]
    rfl
  have hover2 : (mapFind (phaseSlotMap workers) p).getD 0 < e.2 := by
    rw [hsup, he2]
    exact hover
  have hmain := filter_oversat_main (phaseSlotMap workers) p e.2 hover2
    (phaseDemandMap tasks) hnd hmem2
  rw [show validateAdvancedConstraints clients workers tasks
      = (phaseDemandMap tasks).filterMap (fun e =>
          if (mapFind (phaseSlotMap workers) e.1).getD 0 < e.2 then
            some (oversatFinding e.1 e.2 ((mapFind (phaseSlotMap workers) e.1).getD 0))
          else none) from rfl]
  rw [hmain, he2, hsup]

/-- C9 (witness): phase 2 with demand `5 + 7 = 12` and supply `3 + 5 = 8`
yields exactly the one oversaturation warning naming 12 and 8. -/
theorem claim_C9_witness :
    phaseDemand c9tasks 2 = 12 ∧ phaseSupply c9workers 2 = 8 ∧
      (validateAdvancedConstraints [] c9workers c9tasks).filter
          (fun f => f.id == oversatId 2)
        = [oversatFinding 2 (phaseDemand c9tasks 2) (phaseSupply c9workers 2)] :=
  ⟨by decide, by decide,
    claim_C9_oversaturation [] c9workers c9tasks 2 (by decide) (by decide)
      (by decide) (by decide)⟩

/-- C10: accepting a suggestion whose id is not among the pending
suggestions leaves the whole state unchanged (the reducer returns `state`
as-is: no rule added, no suggestion removed, every field identical). -/
theorem claim_C10_accept_unknown (state : DataState) (sid : String) (now : Nat)
    (nowIso : String) (h : ∀ sug ∈ state.ruleSuggestions, sug.id ≠ sid) :
    dataReducer state (.acceptRuleSuggestion sid) now nowIso = state := by
  have hfind : state.ruleSuggestions.find? (fun s => s.id == sid) = none := by
    rw [List.find?_eq_none]
    intro s hs
    simpa using h s hs
  simp [dataReducer, hfind]

/-- C10 (witness): accepting the unknown id `s2` in a state whose only
pending suggestion is `s1`. -/
theorem claim_C10_witness :
    dataReducer c10state (.acceptRuleSuggestion "s2") 0 "" = c10state :=
  claim_C10_accept_unknown c10state "s2" 0 "" (by decide)

end DA
